import Mathlib

/-!
Shallow embedding of the proppilot reconciliation core (calendar sync,
event bus, cleaning automation, guest messaging) and proofs about the
behaviour of its operations.

Conventions of the embedding:
* dates and timestamps are `Nat` (days / abstract clock ticks);
* SQLAlchemy rows become structures carrying their primary key;
* a table is a `List` of rows together with the autoincrement counter;
* the `unique=True` constraint on `bookings.ical_uid` is modelled by the
  insert failing (an `IntegrityError` escaping `_sync_property`), which
  truncates the run: `sync_property` reports `ok = false` and keeps the
  state committed so far, mirroring the per-row `session.commit()` calls;
* event publication is modelled by returning the list of published
  events in order.
-/

namespace Proppilot

/-- status column of `bookings` (`confirmed`, `cancelled`, `completed`). -/
inductive BookingStatus
  | confirmed
  | cancelled
  | completed
deriving DecidableEq

/-- source column of `bookings` (`ical`, `email`, `manual`). -/
inductive BookingSource
  | ical
  | email
  | manual
deriving DecidableEq

/-- A row of the `bookings` table (columns the sync logic reads or writes). -/
structure Booking where
  id : Nat
  property_id : Nat
  ical_uid : Option String
  checkin_date : Nat
  checkout_date : Nat
  summary : Option String
  status : BookingStatus
  source : BookingSource
  updated_at : Nat
deriving DecidableEq

/-- One parsed iCal event, as produced by `CalendarSyncer._parse_events`. -/
structure FeedEvent where
  uid : String
  checkin : Nat
  checkout : Nat
  summary : String
deriving DecidableEq

/-- The closed `EventType` enumeration (members the claims touch). -/
inductive EventType
  | booking_new
  | booking_modified
  | booking_cancelled
  | cleaning_task_created
  | message_queued
deriving DecidableEq

/-- An event published on the bus by the calendar sync
(`data` carries `booking_id` and `property_id`). -/
structure SyncEvent where
  event_type : EventType
  booking_id : Nat
  property_id : Nat
deriving DecidableEq

/-- The bookings table plus its autoincrement counter. -/
structure SyncDB where
  bookings : List Booking
  next_id : Nat
deriving DecidableEq

/-- Python truthiness of `b.ical_uid` (`None` and `""` are falsy). -/
def uid_truthy : Option String → Bool
  | none => false
  | some s => decide (s ≠ "")

/-- The query filter
`Booking.property_id == prop.id, Booking.source == "ical"`. -/
def ical_scope (pid : Nat) (b : Booking) : Bool :=
  decide (b.property_id = pid) && decide (b.source = BookingSource.ical)

/-- Python `dict` insertion: a later binding of the same key overwrites
the earlier value but keeps the original key position. -/
def dict_insert (m : List (String × Nat)) (k : String) (v : Nat) :
    List (String × Nat) :=
  if m.any (fun p => decide (p.1 = k)) then
    m.map (fun p => if p.1 = k then (p.1, v) else p)
  else m ++ [(k, v)]

/-- `existing_by_uid = {b.ical_uid: b for b in existing_bookings if b.ical_uid}`,
with bookings represented by their primary key. -/
def build_dict (pid : Nat) (db : SyncDB) : List (String × Nat) :=
  (db.bookings.filter (ical_scope pid)).foldl
    (fun m b =>
      match b.ical_uid with
      | some u => if u = "" then m else dict_insert m u b.id
      | none => m)
    []

/-- Dict lookup by key. -/
def dict_find (m : List (String × Nat)) (u : String) : Option Nat :=
  (m.find? (fun p => decide (p.1 = u))).map (fun p => p.2)

/-- `session.query(Booking).get(id)`: fetch a row by primary key. -/
def find_booking (db : SyncDB) (bid : Nat) : Option Booking :=
  db.bookings.find? (fun b => decide (b.id = bid))

/-- Mutate the row with primary key `bid` in place. -/
def update_booking (db : SyncDB) (bid : Nat) (f : Booking → Booking) : SyncDB :=
  { db with bookings := db.bookings.map (fun b => if b.id = bid then f b else b) }

/-- `CalendarSyncer._update_if_changed`: update checkin/checkout/summary
field by field; bump `updated_at` and report `True` iff anything differed. -/
def update_if_changed (b : Booking) (e : FeedEvent) (now : Nat) :
    Booking × Bool :=
  let p1 := if b.checkin_date ≠ e.checkin then
      ({ b with checkin_date := e.checkin }, true) else (b, false)
  let p2 := if p1.1.checkout_date ≠ e.checkout then
      ({ p1.1 with checkout_date := e.checkout }, true) else (p1.1, p1.2)
  let p3 := if p2.1.summary ≠ some e.summary then
      ({ p2.1 with summary := some e.summary }, true) else (p2.1, p2.2)
  if p3.2 then ({ p3.1 with updated_at := now }, true) else (p3.1, false)

/-- State carried through one `_sync_property` pass. -/
structure SyncState where
  db : SyncDB
  seen : List String
  events : List SyncEvent

/-- Does any row of the table already hold this `ical_uid`
(the `unique=True` column constraint)? -/
def uid_conflict (db : SyncDB) (u : String) : Bool :=
  db.bookings.any (fun b => decide (b.ical_uid = some u))

/-- The booking row inserted for a not-yet-known feed event
(`Booking(property_id=..., ical_uid=uid, ..., status="confirmed",
source="ical")`). -/
def fresh_booking (pid now bid : Nat) (e : FeedEvent) : Booking :=
  { id := bid
    property_id := pid
    ical_uid := some e.uid
    checkin_date := e.checkin
    checkout_date := e.checkout
    summary := some e.summary
    status := BookingStatus.confirmed
    source := BookingSource.ical
    updated_at := now }

/-- The body of the `for evt in events` loop of `_sync_property` for one
event: update-if-changed for a known uid, insert + publish for an unknown
one.  The `Bool` is `false` when the insert hits the unique constraint
(the `IntegrityError` aborting the pass). -/
def sync_step (pid now : Nat) (dict : List (String × Nat)) (st : SyncState)
    (e : FeedEvent) : SyncState × Bool :=
  match dict_find dict e.uid with
  | some bid =>
    match find_booking st.db bid with
    | some b =>
      let ub := update_if_changed b e now
      if ub.2 then
        ({ db := update_booking st.db bid (fun _ => ub.1)
           seen := st.seen ++ [e.uid]
           events := st.events ++
             [⟨EventType.booking_modified, bid, pid⟩] }, true)
      else ({ st with seen := st.seen ++ [e.uid] }, true)
    | none => ({ st with seen := st.seen ++ [e.uid] }, true)
  | none =>
    if uid_conflict st.db e.uid then
      ({ st with seen := st.seen ++ [e.uid] }, false)
    else
      ({ db := { bookings := st.db.bookings ++ [fresh_booking pid now st.db.next_id e]
                 next_id := st.db.next_id + 1 }
         seen := st.seen ++ [e.uid]
         events := st.events ++
           [⟨EventType.booking_new, st.db.next_id, pid⟩] }, true)

/-- The `for evt in events` loop; an uncaught `IntegrityError` stops it. -/
def sync_events (pid now : Nat) (dict : List (String × Nat)) :
    SyncState → List FeedEvent → SyncState × Bool
  | st, [] => (st, true)
  | st, e :: es =>
    match sync_step pid now dict st e with
    | (st1, true) => sync_events pid now dict st1 es
    | (st1, false) => (st1, false)

/-- `booking.status = "cancelled"` plus the SQLAlchemy `onupdate` bump of
`updated_at` performed by the commit. -/
def cancel_row (now : Nat) (x : Booking) : Booking :=
  { x with status := BookingStatus.cancelled, updated_at := now }

/-- One iteration of the cancellation loop over `existing_by_uid.items()`. -/
def cancel_step (pid now : Nat) (st : SyncState) (entry : String × Nat) :
    SyncState :=
  if entry.1 ∈ st.seen then st
  else
    match find_booking st.db entry.2 with
    | some b =>
      if b.status = BookingStatus.confirmed then
        { st with
            db := update_booking st.db entry.2 (cancel_row now)
            events := st.events ++
              [⟨EventType.booking_cancelled, entry.2, pid⟩] }
      else st
    | none => st

/-- The cancellation loop: bookings in the DB but no longer in the feed. -/
def cancel_missing (pid now : Nat) (dict : List (String × Nat))
    (st : SyncState) : SyncState :=
  dict.foldl (cancel_step pid now) st

/-- Result of one `_sync_property` pass; `ok = false` means the pass was
aborted by an uncaught error, keeping the state committed so far. -/
structure SyncResult where
  db : SyncDB
  events : List SyncEvent
  ok : Bool

/-- `CalendarSyncer._sync_property` on an already fetched and parsed feed. -/
def sync_property (pid now : Nat) (db : SyncDB) (feed : List FeedEvent) :
    SyncResult :=
  let dict := build_dict pid db
  match sync_events pid now dict ⟨db, [], []⟩ feed with
  | (st, true) =>
    let st1 := cancel_missing pid now dict st
    ⟨st1.db, st1.events, true⟩
  | (st, false) => ⟨st.db, st.events, false⟩

/-- A component from `Calendar.from_ical(...).walk()`:
its name and the four properties `_parse_events` reads. -/
structure VComponent where
  name : String
  uid : Option String
  dtstart : Option Nat
  dtend : Option Nat
  summary : Option String
deriving DecidableEq

/-- `CalendarSyncer._parse_events`: keep VEVENTs, skip any entry missing
uid, dtstart or dtend. -/
def parse_events (comps : List VComponent) : List FeedEvent :=
  comps.filterMap (fun c =>
    if c.name ≠ "VEVENT" then none
    else
      let uid := c.uid.getD ""
      match c.dtstart, c.dtend with
      | some ds, some de =>
        if uid = "" then none
        else some ⟨uid, ds, de, c.summary.getD ""⟩
      | some _, none => none
      | none, some _ => none
      | none, none => none)

/-- Convenience: the row count of a result for one primary key. -/
def events_for (r : SyncResult) (bid : Nat) : Nat :=
  r.events.countP (fun ev => decide (ev.booking_id = bid))

/-- Well-formedness of the bookings table: primary keys pairwise distinct
and below the counter, and non-null `ical_uid`s pairwise distinct (the
`unique=True` constraint). -/
def pairwise_ok (p : Booking → Booking → Bool) : List Booking → Bool
  | [] => true
  | b :: bs => bs.all (p b) && pairwise_ok p bs

/-- The two rows have different primary keys. -/
def id_distinct (a b : Booking) : Bool := decide (a.id ≠ b.id)

/-- The two rows do not share a non-null `ical_uid`. -/
def uid_distinct (a b : Booking) : Bool :=
  match a.ical_uid, b.ical_uid with
  | some u, some v => decide (u ≠ v)
  | _, _ => true

/-- Database invariant maintained by SQLAlchemy: distinct primary keys
below the autoincrement counter and unique non-null `ical_uid`s. -/
def SyncDB.wf (db : SyncDB) : Bool :=
  pairwise_ok id_distinct db.bookings &&
  pairwise_ok uid_distinct db.bookings &&
  db.bookings.all (fun b => decide (b.id < db.next_id))

/-! ### Operations module (`OperationsManager`) -/

/-- status column of `cleaning_tasks`. -/
inductive TaskStatus
  | pending
  | notified
  | completed
  | cancelled
deriving DecidableEq

/-- A row of the `cleaning_tasks` table (columns the automation touches). -/
structure CleaningTask where
  id : Nat
  property_id : Nat
  booking_id : Option Nat
  scheduled_date : Nat
  status : TaskStatus
  is_turnover : Bool
  priority : String
deriving DecidableEq

/-- Database slice seen by `OperationsManager`. -/
structure OpsDB where
  bookings : List Booking
  tasks : List CleaningTask
  next_task_id : Nat
deriving DecidableEq

/-- An event published by `create_cleaning_task`
(`data` carries `task_id` and `property_id`). -/
structure OpsEvent where
  event_type : EventType
  task_id : Nat
  property_id : Nat
deriving DecidableEq

/-- `OperationsManager._check_same_day_turnover`: is there a confirmed
booking on this property checking in on `checkout_date`? (`.first()`
returning a row is `any`.) -/
def check_same_day_turnover (db : OpsDB) (property_id checkout_date : Nat) :
    Bool :=
  db.bookings.any (fun b =>
    decide (b.property_id = property_id) &&
    decide (b.checkin_date = checkout_date) &&
    decide (b.status = BookingStatus.confirmed))

/-- Result of `create_cleaning_task`. -/
structure CreateTaskResult where
  db : OpsDB
  task : Option CleaningTask
  events : List OpsEvent

/-- `OperationsManager.create_cleaning_task`: dedup on a non-cancelled
task for the booking, otherwise create a pending task on the checkout
date with turnover detection, and publish `cleaning_task_created`. -/
def create_cleaning_task (db : OpsDB) (booking_id property_id : Nat) :
    CreateTaskResult :=
  match db.bookings.find? (fun b => decide (b.id = booking_id)) with
  | none => ⟨db, none, []⟩
  | some booking =>
    match db.tasks.find? (fun t =>
        decide (t.booking_id = some booking_id) &&
        decide (t.status ≠ TaskStatus.cancelled)) with
    | some existing => ⟨db, some existing, []⟩
    | none =>
      let turn := check_same_day_turnover db property_id booking.checkout_date
      let task : CleaningTask :=
        { id := db.next_task_id
          property_id := property_id
          booking_id := some booking_id
          scheduled_date := booking.checkout_date
          status := TaskStatus.pending
          is_turnover := turn
          priority := if turn then "high" else "normal" }
      ⟨{ db with tasks := db.tasks ++ [task], next_task_id := db.next_task_id + 1 },
        some task,
        [⟨EventType.cleaning_task_created, task.id, property_id⟩]⟩

/-- `OperationsManager._on_booking_cancelled` after extracting a present,
truthy `booking_id` from the event: batch-cancel every pending or notified
cleaning task linked to the booking. -/
def cancel_tasks_for_booking (db : OpsDB) (booking_id : Nat) : OpsDB :=
  { db with
      tasks := db.tasks.map (fun t =>
        if t.booking_id = some booking_id ∧
            (t.status = TaskStatus.pending ∨ t.status = TaskStatus.notified) then
          { t with status := TaskStatus.cancelled }
        else t) }

/-- `OperationsManager._on_booking_cancelled`: the handler itself; a
missing or falsy `booking_id` in the event payload is a no-op. -/
def on_booking_cancelled (db : OpsDB) (booking_id : Option Nat) : OpsDB :=
  match booking_id with
  | none => db
  | some bid => if bid = 0 then db else cancel_tasks_for_booking db bid

/-! ### Guest communications module (`GuestCommunicator`) -/

/-- status column of `message_log`. -/
inductive MessageStatus
  | queued
  | sent
  | copied
  | failed
deriving DecidableEq

/-- A row of the `message_log` table (columns `queue_message` writes). -/
structure MessageLog where
  id : Nat
  booking_id : Nat
  template_name : String
  channel : String
  status : MessageStatus
  scheduled_at : Nat
  body : String
deriving DecidableEq

/-- Database slice seen by `GuestCommunicator` (properties by id). -/
structure CommsDB where
  bookings : List Booking
  properties : List Nat
  messages : List MessageLog
  next_msg_id : Nat
deriving DecidableEq

/-- An event published by `queue_message`
(`data` carries `message_id` and `template`). -/
structure CommsEvent where
  event_type : EventType
  message_id : Nat
  template : String
deriving DecidableEq

/-- The dedup filter of `queue_message`:
`status.in_(["queued", "sent", "copied"])`. -/
def non_terminal (s : MessageStatus) : Bool :=
  match s with
  | MessageStatus.queued => true
  | MessageStatus.sent => true
  | MessageStatus.copied => true
  | MessageStatus.failed => false

/-- A `message_log` row matching the dedup query for
`(booking_id, template_name)`. -/
def dedup_match (booking_id : Nat) (template_name : String)
    (m : MessageLog) : Bool :=
  decide (m.booking_id = booking_id) &&
  decide (m.template_name = template_name) &&
  non_terminal m.status

/-- Result of `queue_message`. -/
structure QueueResult where
  db : CommsDB
  msg : Option MessageLog
  events : List CommsEvent

/-- `GuestCommunicator.queue_message`: look up booking and property,
dedup on an existing non-failed row for `(booking_id, template_name)`,
otherwise render (the collaborator may fail), insert a queued row and
publish `message_queued`.  `render` abstracts `_render_template`. -/
def queue_message (db : CommsDB) (render : String → Booking → Nat → Option String)
    (now booking_id : Nat) (template_name channel : String)
    (scheduled_at : Option Nat) : QueueResult :=
  match db.bookings.find? (fun b => decide (b.id = booking_id)) with
  | none => ⟨db, none, []⟩
  | some booking =>
    if booking.property_id ∈ db.properties then
      match db.messages.find? (dedup_match booking_id template_name) with
      | some existing => ⟨db, some existing, []⟩
      | none =>
        match render template_name booking booking.property_id with
        | none => ⟨db, none, []⟩
        | some body =>
          let msg : MessageLog :=
            { id := db.next_msg_id
              booking_id := booking_id
              template_name := template_name
              channel := channel
              status := MessageStatus.queued
              scheduled_at := scheduled_at.getD now
              body := body }
          ⟨{ db with messages := db.messages ++ [msg], next_msg_id := db.next_msg_id + 1 },
            some msg,
            [⟨EventType.message_queued, msg.id, template_name⟩]⟩
    else ⟨db, none, []⟩

/-- Number of non-failed `message_log` rows for a
`(booking_id, template_name)` pair. -/
def active_count (db : CommsDB) (booking_id : Nat) (template_name : String) :
    Nat :=
  db.messages.countP (dedup_match booking_id template_name)

/-- Number of non-cancelled cleaning tasks linked to a booking. -/
def active_task_count (db : OpsDB) (booking_id : Nat) : Nat :=
  db.tasks.countP (fun t =>
    decide (t.booking_id = some booking_id) &&
    decide (t.status ≠ TaskStatus.cancelled))

/-! ### Event bus (`EventBus`) -/

/-- A subscriber callback over an abstract component state `σ`: it
returns the state as left behind by the handler together with the
exception it raised, if any (`none` = returned normally). -/
def Handler (σ : Type) := σ → σ × Option String

/-- `EventBus.publish` restricted to the subscriber list registered for
the published event's type: invoke every callback sequentially; a raised
exception is caught (collected in the log) and the loop continues.  The
returned log holds, in order, one entry per invoked callback. -/
def publish {σ : Type} (handlers : List (Handler σ)) (s : σ) :
    σ × List (Option String) :=
  handlers.foldl
    (fun acc h =>
      let r := h acc.1
      (r.1, acc.2 ++ [r.2]))
    (s, [])

/-- A subscriber registry: `subscribe` appends to the list kept for the
event type (`defaultdict(list)` in the source). -/
structure Bus (σ : Type) where
  subscribers : List (EventType × Handler σ)

/-- `EventBus.subscribe`. -/
def subscribe {σ : Type} (bus : Bus σ) (t : EventType) (h : Handler σ) :
    Bus σ :=
  ⟨bus.subscribers ++ [(t, h)]⟩

/-- The callbacks registered for one event type, in subscription order. -/
def handlers_for {σ : Type} (bus : Bus σ) (t : EventType) : List (Handler σ) :=
  (bus.subscribers.filter (fun p => decide (p.1 = t))).map (fun p => p.2)

/-- `EventBus.publish` on a bus: dispatch to the type's subscriber list. -/
def publish_on {σ : Type} (bus : Bus σ) (t : EventType) (s : σ) :
    σ × List (Option String) :=
  publish (handlers_for bus t) s

/-- The booking row carries exactly the feed event's data. -/
def matches_event (b : Booking) (e : FeedEvent) : Prop :=
  b.checkin_date = e.checkin ∧ b.checkout_date = e.checkout ∧
  b.summary = some e.summary

instance (b : Booking) (e : FeedEvent) : Decidable (matches_event b e) := by
  unfold matches_event; infer_instance

/-- The unique row of a well-formed table holding a given `ical_uid`. -/
def get_uid (db : SyncDB) (u : String) : Option Booking :=
  db.bookings.find? (fun b => decide (b.ical_uid = some u))

/-! ### Basic table lemmas -/

theorem pairwise_ok_cons {p : Booking → Booking → Bool} {b : Booking}
    {bs : List Booking} :
    pairwise_ok p (b :: bs) = true ↔
      (∀ x ∈ bs, p b x = true) ∧ pairwise_ok p bs = true := by
  simp [pairwise_ok, List.all_eq_true, Bool.and_eq_true]

theorem wf_ids {db : SyncDB} (h : db.wf = true) :
    pairwise_ok id_distinct db.bookings = true := by
  simp [SyncDB.wf, Bool.and_eq_true] at h; exact h.1.1

theorem wf_uids {db : SyncDB} (h : db.wf = true) :
    pairwise_ok uid_distinct db.bookings = true := by
  simp [SyncDB.wf, Bool.and_eq_true] at h; exact h.1.2

theorem wf_bound {db : SyncDB} (h : db.wf = true) :
    ∀ b ∈ db.bookings, b.id < db.next_id := by
  simp [SyncDB.wf, Bool.and_eq_true, List.all_eq_true] at h
  intro b hb; exact h.2 b hb

theorem wf_of_parts {db : SyncDB}
    (h1 : pairwise_ok id_distinct db.bookings = true)
    (h2 : pairwise_ok uid_distinct db.bookings = true)
    (h3 : ∀ b ∈ db.bookings, b.id < db.next_id) : db.wf = true := by
  simp [SyncDB.wf, Bool.and_eq_true, List.all_eq_true]
  exact ⟨⟨h1, h2⟩, h3⟩

theorem id_unique {l : List Booking} (h : pairwise_ok id_distinct l = true)
    {b b' : Booking} (hb : b ∈ l) (hb' : b' ∈ l) (hid : b.id = b'.id) :
    b = b' := by
  induction l with
  | nil => cases hb
  | cons a t ih =>
    rw [pairwise_ok_cons] at h
    rcases List.mem_cons.mp hb with rfl | hbt
    · rcases List.mem_cons.mp hb' with rfl | hb't
      · rfl
      · have := h.1 b' hb't
        simp [id_distinct, hid] at this
    · rcases List.mem_cons.mp hb' with rfl | hb't
      · have := h.1 b hbt
        simp [id_distinct, hid] at this
      · exact ih h.2 hbt hb't

theorem uid_unique {l : List Booking} (h : pairwise_ok uid_distinct l = true)
    {b b' : Booking} {u : String} (hb : b ∈ l) (hb' : b' ∈ l)
    (hu : b.ical_uid = some u) (hu' : b'.ical_uid = some u) : b = b' := by
  induction l with
  | nil => cases hb
  | cons a t ih =>
    rw [pairwise_ok_cons] at h
    rcases List.mem_cons.mp hb with rfl | hbt
    · rcases List.mem_cons.mp hb' with rfl | hb't
      · rfl
      · have := h.1 b' hb't
        rw [uid_distinct, hu, hu'] at this
        simp at this
    · rcases List.mem_cons.mp hb' with rfl | hb't
      · have := h.1 b hbt
        rw [uid_distinct, hu', hu] at this
        simp at this
      · exact ih h.2 hbt hb't

theorem find_of_pairwise_id {l : List Booking}
    (h : pairwise_ok id_distinct l = true) {b : Booking} (hb : b ∈ l) :
    l.find? (fun x => decide (x.id = b.id)) = some b := by
  induction l with
  | nil => cases hb
  | cons a t ih =>
    rw [pairwise_ok_cons] at h
    rcases List.mem_cons.mp hb with rfl | hbt
    · simp [List.find?]
    · have hne : ¬(a.id = b.id) := by
        have := h.1 b hbt
        simp [id_distinct] at this
        exact this
      rw [List.find?_cons_of_neg _ (by simp [hne])]
      exact ih h.2 hbt

theorem find_booking_eq {db : SyncDB} (hwf : db.wf = true) {b : Booking}
    (hb : b ∈ db.bookings) : find_booking db b.id = some b :=
  find_of_pairwise_id (wf_ids hwf) hb

theorem find_booking_mem {db : SyncDB} {bid : Nat} {b : Booking}
    (h : find_booking db bid = some b) : b ∈ db.bookings ∧ b.id = bid := by
  refine ⟨List.mem_of_find?_eq_some h, ?_⟩
  have := List.find?_some h
  simpa using this

theorem find_of_pairwise_uid {l : List Booking}
    (h : pairwise_ok uid_distinct l = true) {b : Booking} {u : String}
    (hb : b ∈ l) (hu : b.ical_uid = some u) :
    l.find? (fun x => decide (x.ical_uid = some u)) = some b := by
  induction l with
  | nil => cases hb
  | cons a t ih =>
    rw [pairwise_ok_cons] at h
    rcases List.mem_cons.mp hb with rfl | hbt
    · simp [List.find?, hu]
    · have hne : ¬(a.ical_uid = some u) := by
        intro hau
        have := h.1 b hbt
        rw [uid_distinct, hau, hu] at this
        simp at this
      rw [List.find?_cons_of_neg _ (by simp [hne])]
      exact ih h.2 hbt

theorem get_uid_eq {db : SyncDB} (hwf : db.wf = true) {b : Booking}
    {u : String} (hb : b ∈ db.bookings) (hu : b.ical_uid = some u) :
    get_uid db u = some b :=
  find_of_pairwise_uid (wf_uids hwf) hb hu

theorem countP_uid_of_pairwise {l : List Booking}
    (h : pairwise_ok uid_distinct l = true) {b : Booking} {u : String}
    (hb : b ∈ l) (hu : b.ical_uid = some u) :
    l.countP (fun x => decide (x.ical_uid = some u)) = 1 := by
  induction l with
  | nil => cases hb
  | cons a t ih =>
    rw [pairwise_ok_cons] at h
    rcases List.mem_cons.mp hb with rfl | hbt
    · rw [List.countP_cons_of_pos _ _ (by simp [hu])]
      have : t.countP (fun x => decide (x.ical_uid = some u)) = 0 := by
        rw [List.countP_eq_zero]
        intro x hx
        simp only [decide_eq_true_eq]
        intro hxu
        have := h.1 x hx
        rw [uid_distinct, hu, hxu] at this
        simp at this
      omega
    · have hne : ¬(a.ical_uid = some u) := by
        intro hau
        have := h.1 b hbt
        rw [uid_distinct, hau, hu] at this
        simp at this
      rw [List.countP_cons_of_neg _ _ (by simp [hne])]
      exact ih h.2 hbt

theorem countP_uid_eq_one {db : SyncDB} (hwf : db.wf = true) {b : Booking}
    {u : String} (hb : b ∈ db.bookings) (hu : b.ical_uid = some u) :
    db.bookings.countP (fun x => decide (x.ical_uid = some u)) = 1 :=
  countP_uid_of_pairwise (wf_uids hwf) hb hu

/-! ### The uid dictionary -/

/-- The dictionary entry a single scoped booking contributes. -/
def scope_entry (b : Booking) : Option (String × Nat) :=
  match b.ical_uid with
  | some u => if u = "" then none else some (u, b.id)
  | none => none

theorem scope_entry_eq_some {b : Booking} {q : String × Nat} :
    scope_entry b = some q ↔ b.ical_uid = some q.1 ∧ q.1 ≠ "" ∧ q.2 = b.id := by
  obtain ⟨q1, q2⟩ := q
  cases hbu : b.ical_uid with
  | none => simp [scope_entry, hbu]
  | some u =>
    by_cases hu : u = ""
    · subst hu
      simp only [scope_entry, hbu, if_pos rfl]
      constructor
      · intro h; exact Option.noConfusion h
      · rintro ⟨h1, h2, h3⟩
        exact absurd (Option.some.inj h1).symm h2
    · simp only [scope_entry, hbu, if_neg hu, Option.some.injEq, Prod.mk.injEq]
      constructor
      · rintro ⟨rfl, rfl⟩
        exact ⟨rfl, hu, rfl⟩
      · rintro ⟨rfl, h2, rfl⟩
        exact ⟨rfl, rfl⟩

theorem dict_insert_fresh {m : List (String × Nat)} {k : String} {v : Nat}
    (h : ∀ p ∈ m, p.1 ≠ k) : dict_insert m k v = m ++ [(k, v)] := by
  unfold dict_insert
  rw [if_neg]
  simp only [List.any_eq_true, decide_eq_true_eq, not_exists]
  intro p hp
  exact h p hp.1 hp.2

theorem build_dict_go_eq (l : List Booking) (m : List (String × Nat))
    (hdisj : ∀ p ∈ m, ∀ b ∈ l, b.ical_uid ≠ some p.1)
    (hpw : pairwise_ok uid_distinct l = true) :
    l.foldl
      (fun m b =>
        match b.ical_uid with
        | some u => if u = "" then m else dict_insert m u b.id
        | none => m) m = m ++ l.filterMap scope_entry := by
  induction l generalizing m with
  | nil => simp
  | cons b t ih =>
    rw [pairwise_ok_cons] at hpw
    rw [List.foldl_cons, List.filterMap_cons]
    cases hbu : b.ical_uid with
    | none =>
      simp only [hbu, scope_entry]
      exact ih m (fun p hp x hx => hdisj p hp x (List.mem_cons_of_mem b hx)) hpw.2
    | some u =>
      by_cases hu : u = ""
      · subst hu
        simp only [hbu, scope_entry, if_pos rfl]
        exact ih m (fun p hp x hx => hdisj p hp x (List.mem_cons_of_mem b hx)) hpw.2
      · simp only [hbu, scope_entry, if_neg hu]
        rw [dict_insert_fresh (fun p hp hpk => hdisj p hp b (List.mem_cons_self b t) (by rw [hbu, hpk]))]
        rw [ih (m ++ [(u, b.id)]) ?_ hpw.2]
        · simp
        · intro p hp x hx
          rcases List.mem_append.mp hp with hpm | hpu
          · exact hdisj p hpm x (List.mem_cons_of_mem b hx)
          · have : p = (u, b.id) := by simpa using hpu
            subst this
            intro hxu
            have := hpw.1 x hx
            rw [uid_distinct, hbu, hxu] at this
            simp at this

theorem pairwise_ok_filter {p : Booking → Booking → Bool} {q : Booking → Bool}
    {l : List Booking} (h : pairwise_ok p l = true) :
    pairwise_ok p (l.filter q) = true := by
  induction l with
  | nil => simp [pairwise_ok]
  | cons a t ih =>
    rw [pairwise_ok_cons] at h
    by_cases hq : q a = true
    · rw [List.filter_cons_of_pos hq, pairwise_ok_cons]
      exact ⟨fun x hx => h.1 x (List.mem_of_mem_filter hx), ih h.2⟩
    · rw [List.filter_cons_of_neg (by simpa using hq)]
      exact ih h.2

theorem build_dict_eq {pid : Nat} {db : SyncDB} (hwf : db.wf = true) :
    build_dict pid db = (db.bookings.filter (ical_scope pid)).filterMap scope_entry := by
  unfold build_dict
  rw [build_dict_go_eq _ [] (by simp) (pairwise_ok_filter (wf_uids hwf))]
  simp

theorem mem_build_dict {pid : Nat} {db : SyncDB} (hwf : db.wf = true)
    {q : String × Nat} :
    q ∈ build_dict pid db ↔
      ∃ b ∈ db.bookings, ical_scope pid b = true ∧ b.ical_uid = some q.1 ∧
        q.1 ≠ "" ∧ q.2 = b.id := by
  rw [build_dict_eq hwf]
  rw [List.mem_filterMap]
  constructor
  · rintro ⟨b, hb, hq⟩
    obtain ⟨h1, h2, h3⟩ := scope_entry_eq_some.mp hq
    exact ⟨b, List.mem_of_mem_filter hb, (List.mem_filter.mp hb).2, h1, h2, h3⟩
  · rintro ⟨b, hb, hs, h1, h2, h3⟩
    exact ⟨b, List.mem_filter.mpr ⟨hb, hs⟩, scope_entry_eq_some.mpr ⟨h1, h2, h3⟩⟩

theorem dict_find_mem {m : List (String × Nat)} {u : String} {bid : Nat}
    (h : dict_find m u = some bid) : (u, bid) ∈ m := by
  unfold dict_find at h
  cases hf : m.find? (fun p => decide (p.1 = u)) with
  | none => rw [hf] at h; cases h
  | some p =>
    rw [hf] at h
    have hm := List.mem_of_find?_eq_some hf
    have hp := List.find?_some hf
    simp only [decide_eq_true_eq] at hp
    simp only [Option.map_some'] at h
    obtain ⟨p1, p2⟩ := p
    dsimp only at hp h
    subst hp
    obtain rfl : p2 = bid := Option.some.inj h
    exact hm

theorem dict_find_none_iff {m : List (String × Nat)} {u : String} :
    dict_find m u = none ↔ ∀ p ∈ m, p.1 ≠ u := by
  unfold dict_find
  simp [List.find?_eq_none]

theorem dict_find_build {pid : Nat} {db : SyncDB} (hwf : db.wf = true)
    {b : Booking} {u : String} (hb : b ∈ db.bookings)
    (hs : ical_scope pid b = true) (hu : b.ical_uid = some u) (hne : u ≠ "") :
    dict_find (build_dict pid db) u = some b.id := by
  have hmem : ((u, b.id) : String × Nat) ∈ build_dict pid db :=
    (mem_build_dict hwf).mpr ⟨b, hb, hs, hu, hne, rfl⟩
  unfold dict_find
  cases hf : (build_dict pid db).find? (fun p => decide (p.1 = u)) with
  | none =>
    rw [List.find?_eq_none] at hf
    have hc := hf _ hmem
    simp at hc
  | some p =>
    have hm := List.mem_of_find?_eq_some hf
    have hp1 := List.find?_some hf
    simp only [decide_eq_true_eq] at hp1
    obtain ⟨b', hb', hs', hu', hne', hid'⟩ := (mem_build_dict hwf).mp hm
    rw [hp1] at hu'
    obtain rfl : b' = b := uid_unique (wf_uids hwf) hb' hb hu' hu
    simp [hid']

theorem dict_find_build_none {pid : Nat} {db : SyncDB} (hwf : db.wf = true)
    {u : String}
    (h : ∀ b ∈ db.bookings, ical_scope pid b = true → b.ical_uid ≠ some u) :
    dict_find (build_dict pid db) u = none := by
  rw [dict_find_none_iff]
  intro p hp
  obtain ⟨b, hb, hs, hu, hne, hid⟩ := (mem_build_dict hwf).mp hp
  intro h1
  rw [h1] at hu
  exact h b hb hs hu

theorem build_dict_keys_nodup {pid : Nat} {db : SyncDB} (hwf : db.wf = true) :
    ((build_dict pid db).map Prod.fst).Nodup := by
  rw [build_dict_eq hwf]
  have hpw : pairwise_ok uid_distinct (db.bookings.filter (ical_scope pid)) = true :=
    pairwise_ok_filter (wf_uids hwf)
  generalize db.bookings.filter (ical_scope pid) = l at hpw
  induction l with
  | nil => simp
  | cons b t ih =>
    rw [pairwise_ok_cons] at hpw
    cases hse : scope_entry b with
    | none =>
      rw [List.filterMap_cons, hse]
      exact ih hpw.2
    | some q =>
      rw [List.filterMap_cons, hse, List.map_cons, List.nodup_cons]
      refine ⟨?_, ih hpw.2⟩
      intro hmem
      obtain ⟨q', hq', hfst⟩ := List.mem_map.mp hmem
      obtain ⟨x, hx, hxq⟩ := List.mem_filterMap.mp hq'
      obtain ⟨hxu, hxne, hxid⟩ := scope_entry_eq_some.mp hxq
      obtain ⟨hbu, hbne, hbid⟩ := scope_entry_eq_some.mp hse
      have hud := hpw.1 x hx
      simp only [uid_distinct, hbu, hxu, hfst, decide_eq_true_eq] at hud
      exact hud rfl

theorem build_dict_values_lt {pid : Nat} {db : SyncDB} (hwf : db.wf = true)
    {q : String × Nat} (hq : q ∈ build_dict pid db) : q.2 < db.next_id := by
  obtain ⟨b, hb, _, _, _, hid⟩ := (mem_build_dict hwf).mp hq
  rw [hid]
  exact wf_bound hwf b hb

/-! ### Preservation of well-formedness by the table operations -/

theorem pairwise_ok_map_pointwise {p : Booking → Booking → Bool}
    {g : Booking → Booking} :
    ∀ {l : List Booking}, (∀ a ∈ l, ∀ b ∈ l, p (g a) (g b) = p a b) →
      (pairwise_ok p (l.map g) = true ↔ pairwise_ok p l = true) := by
  intro l
  induction l with
  | nil => intro _; simp [pairwise_ok]
  | cons a t ih =>
    intro hg
    rw [List.map_cons]
    rw [pairwise_ok_cons, pairwise_ok_cons]
    rw [ih (fun x hx y hy => hg x (List.mem_cons_of_mem a hx) y (List.mem_cons_of_mem a hy))]
    constructor
    · rintro ⟨h1, h2⟩
      refine ⟨?_, h2⟩
      intro x hx
      have := h1 (g x) (List.mem_map_of_mem g hx)
      rwa [hg a (List.mem_cons_self a t) x (List.mem_cons_of_mem a hx)] at this
    · rintro ⟨h1, h2⟩
      refine ⟨?_, h2⟩
      intro y hy
      obtain ⟨x, hx, rfl⟩ := List.mem_map.mp hy
      rw [hg a (List.mem_cons_self a t) x (List.mem_cons_of_mem a hx)]
      exact h1 x hx

theorem pairwise_ok_append_singleton {p : Booking → Booking → Bool}
    {l : List Booking} {x : Booking} :
    pairwise_ok p (l ++ [x]) = true ↔
      pairwise_ok p l = true ∧ ∀ a ∈ l, p a x = true := by
  induction l with
  | nil => simp [pairwise_ok]
  | cons a t ih =>
    rw [List.cons_append, pairwise_ok_cons, ih, pairwise_ok_cons]
    constructor
    · rintro ⟨h1, h2, h3⟩
      refine ⟨⟨fun b hb => h1 b (List.mem_append_left _ hb), h2⟩, ?_⟩
      intro b hb
      rcases List.mem_cons.mp hb with rfl | h
      · exact h1 x (List.mem_append_right _ (List.mem_singleton_self x))
      · exact h3 b h
    · rintro ⟨⟨h1, h2⟩, h3⟩
      refine ⟨?_, h2, fun b hb => h3 b (List.mem_cons_of_mem a hb)⟩
      intro b hb
      rcases List.mem_append.mp hb with h | h
      · exact h1 b h
      · rw [List.mem_singleton.mp h]
        exact h3 a (List.mem_cons_self a t)

theorem update_booking_next {db : SyncDB} {bid : Nat} {f : Booking → Booking} :
    (update_booking db bid f).next_id = db.next_id := rfl

theorem mem_update_booking_of_mem {db : SyncDB} (bid : Nat)
    (f : Booking → Booking) {b : Booking} (hb : b ∈ db.bookings) :
    (if b.id = bid then f b else b) ∈ (update_booking db bid f).bookings :=
  List.mem_map_of_mem _ hb

theorem mem_update_booking {db : SyncDB} {bid : Nat} {f : Booking → Booking}
    {x : Booking} (hx : x ∈ (update_booking db bid f).bookings) :
    ∃ b ∈ db.bookings, x = if b.id = bid then f b else b := by
  obtain ⟨b, hb, h⟩ := List.mem_map.mp hx
  exact ⟨b, hb, h.symm⟩

theorem wf_update_booking {db : SyncDB} {bid : Nat} {f : Booking → Booking}
    (hwf : db.wf = true)
    (hid : ∀ x ∈ db.bookings, x.id = bid → (f x).id = x.id)
    (huid : ∀ x ∈ db.bookings, x.id = bid → (f x).ical_uid = x.ical_uid) :
    (update_booking db bid f).wf = true := by
  have g_id : ∀ x ∈ db.bookings,
      (if x.id = bid then f x else x).id = x.id := by
    intro x hx
    by_cases h : x.id = bid
    · rw [if_pos h]; exact hid x hx h
    · rw [if_neg h]
  have g_uid : ∀ x ∈ db.bookings,
      (if x.id = bid then f x else x).ical_uid = x.ical_uid := by
    intro x hx
    by_cases h : x.id = bid
    · rw [if_pos h]; exact huid x hx h
    · rw [if_neg h]
  apply wf_of_parts
  · dsimp only [update_booking]
    rw [pairwise_ok_map_pointwise]
    · exact wf_ids hwf
    · intro a ha b hb
      simp [id_distinct, g_id a ha, g_id b hb]
  · dsimp only [update_booking]
    rw [pairwise_ok_map_pointwise]
    · exact wf_uids hwf
    · intro a ha b hb
      simp only [uid_distinct, g_uid a ha, g_uid b hb]
  · intro x hx
    rw [update_booking_next]
    obtain ⟨b, hb, rfl⟩ := mem_update_booking hx
    rw [g_id b hb]
    exact wf_bound hwf b hb

theorem uid_distinct_of_no_conflict {db : SyncDB} {u : String}
    (hnc : uid_conflict db u = false) {b : Booking} (hb : b ∈ db.bookings)
    {nb : Booking} (hnbu : nb.ical_uid = some u) : uid_distinct b nb = true := by
  have hne : ¬(b.ical_uid = some u) := by
    intro h
    have : uid_conflict db u = true := by
      unfold uid_conflict
      rw [List.any_eq_true]
      exact ⟨b, hb, by simp [h]⟩
    rw [this] at hnc; cases hnc
  rw [uid_distinct, hnbu]
  cases hbu : b.ical_uid with
  | none => rfl
  | some v =>
    simp only [decide_eq_true_eq]
    intro h
    rw [h] at hbu
    exact hne hbu

theorem wf_insert {db : SyncDB} {nb : Booking} (hwf : db.wf = true)
    (hid : nb.id = db.next_id)
    (hu : ∀ b ∈ db.bookings, uid_distinct b nb = true) :
    SyncDB.wf ⟨db.bookings ++ [nb], db.next_id + 1⟩ = true := by
  apply wf_of_parts
  · rw [pairwise_ok_append_singleton]
    refine ⟨wf_ids hwf, ?_⟩
    intro a ha
    have := wf_bound hwf a ha
    simp only [id_distinct, decide_eq_true_eq, hid]
    omega
  · rw [pairwise_ok_append_singleton]
    exact ⟨wf_uids hwf, hu⟩
  · intro b hb
    rcases List.mem_append.mp hb with h | h
    · have := wf_bound hwf b h
      simp only [decide_eq_true_eq]
      omega
    · rw [List.mem_singleton.mp h]
      simp only [decide_eq_true_eq, hid]
      omega

/-! ### The update-if-changed helper -/

theorem update_if_changed_spec (b : Booking) (e : FeedEvent) (now : Nat) :
    (update_if_changed b e now).1.id = b.id ∧
    (update_if_changed b e now).1.property_id = b.property_id ∧
    (update_if_changed b e now).1.ical_uid = b.ical_uid ∧
    (update_if_changed b e now).1.source = b.source ∧
    (update_if_changed b e now).1.status = b.status ∧
    matches_event (update_if_changed b e now).1 e ∧
    ((update_if_changed b e now).2 = false ↔ matches_event b e) ∧
    ((update_if_changed b e now).2 = false → (update_if_changed b e now).1 = b) := by
  unfold update_if_changed matches_event
  by_cases h1 : b.checkin_date = e.checkin <;>
    by_cases h2 : b.checkout_date = e.checkout <;>
    by_cases h3 : b.summary = some e.summary <;>
    simp [h1, h2, h3]

/-! ### Case equations for one step of the event loop -/

theorem sync_step_known_change {pid now : Nat} {dict : List (String × Nat)}
    {st : SyncState} {e : FeedEvent} {bid : Nat} {b : Booking}
    (hdf : dict_find dict e.uid = some bid)
    (hfb : find_booking st.db bid = some b)
    (hch : (update_if_changed b e now).2 = true) :
    sync_step pid now dict st e =
      ({ db := update_booking st.db bid (fun _ => (update_if_changed b e now).1)
         seen := st.seen ++ [e.uid]
         events := st.events ++ [⟨EventType.booking_modified, bid, pid⟩] }, true) := by
  unfold sync_step
  simp only [hdf, hfb, hch, if_true]

theorem sync_step_known_nochange {pid now : Nat} {dict : List (String × Nat)}
    {st : SyncState} {e : FeedEvent} {bid : Nat} {b : Booking}
    (hdf : dict_find dict e.uid = some bid)
    (hfb : find_booking st.db bid = some b)
    (hnc : (update_if_changed b e now).2 = false) :
    sync_step pid now dict st e = ({ st with seen := st.seen ++ [e.uid] }, true) := by
  unfold sync_step
  simp only [hdf, hfb, hnc]
  simp

theorem sync_step_known_missing {pid now : Nat} {dict : List (String × Nat)}
    {st : SyncState} {e : FeedEvent} {bid : Nat}
    (hdf : dict_find dict e.uid = some bid)
    (hfb : find_booking st.db bid = none) :
    sync_step pid now dict st e = ({ st with seen := st.seen ++ [e.uid] }, true) := by
  unfold sync_step
  simp only [hdf, hfb]

theorem sync_step_conflict {pid now : Nat} {dict : List (String × Nat)}
    {st : SyncState} {e : FeedEvent}
    (hdf : dict_find dict e.uid = none)
    (hc : uid_conflict st.db e.uid = true) :
    sync_step pid now dict st e = ({ st with seen := st.seen ++ [e.uid] }, false) := by
  unfold sync_step
  simp only [hdf, hc, if_true]

theorem sync_step_create {pid now : Nat} {dict : List (String × Nat)}
    {st : SyncState} {e : FeedEvent}
    (hdf : dict_find dict e.uid = none)
    (hc : uid_conflict st.db e.uid = false) :
    sync_step pid now dict st e =
      ({ db := { bookings := st.db.bookings ++ [fresh_booking pid now st.db.next_id e]
                 next_id := st.db.next_id + 1 }
         seen := st.seen ++ [e.uid]
         events := st.events ++ [⟨EventType.booking_new, st.db.next_id, pid⟩] }, true) := by
  unfold sync_step
  simp only [hdf, hc]
  simp

theorem sync_events_nil {pid now : Nat} {dict : List (String × Nat)}
    {st : SyncState} : sync_events pid now dict st [] = (st, true) := rfl

theorem sync_events_cons {pid now : Nat} {dict : List (String × Nat)}
    {st : SyncState} {e : FeedEvent} {es : List FeedEvent} :
    sync_events pid now dict st (e :: es) =
      match sync_step pid now dict st e with
      | (st1, true) => sync_events pid now dict st1 es
      | (st1, false) => (st1, false) := by
  rfl

/-! ### Stability: well-formedness plus dictionary coherence -/

/-- Every dictionary entry points (by primary key) at a scoped row of the
table that still carries the entry's uid. -/
def coherent (pid : Nat) (dict : List (String × Nat)) (db : SyncDB) : Prop :=
  ∀ q ∈ dict, q.1 ≠ "" ∧ ∃ b ∈ db.bookings,
    b.id = q.2 ∧ b.ical_uid = some q.1 ∧ ical_scope pid b = true

def stable (pid : Nat) (dict : List (String × Nat)) (db : SyncDB) : Prop :=
  db.wf = true ∧ coherent pid dict db

theorem stable_init {pid : Nat} {db : SyncDB} (hwf : db.wf = true) :
    stable pid (build_dict pid db) db := by
  refine ⟨hwf, ?_⟩
  intro q hq
  obtain ⟨b, hb, hs, hu, hne, hid⟩ := (mem_build_dict hwf).mp hq
  exact ⟨hne, b, hb, hid.symm, hu, hs⟩

theorem find_booking_coherent {pid : Nat} {dict : List (String × Nat)}
    {db : SyncDB} (hst : stable pid dict db) {u : String} {bid : Nat}
    (hdf : dict_find dict u = some bid) :
    ∃ b, find_booking db bid = some b ∧ b.id = bid ∧ b.ical_uid = some u ∧
      ical_scope pid b = true ∧ u ≠ "" := by
  obtain ⟨hne, b, hb, h1, h2, h3⟩ := hst.2 _ (dict_find_mem hdf)
  refine ⟨b, ?_, h1, h2, h3, hne⟩
  have hfe := find_booking_eq hst.1 hb
  rwa [h1] at hfe

theorem coherent_update {pid : Nat} {dict : List (String × Nat)} {db : SyncDB}
    {bid : Nat} {f : Booking → Booking} (hcoh : coherent pid dict db)
    (hid : ∀ x ∈ db.bookings, x.id = bid → (f x).id = x.id)
    (huid : ∀ x ∈ db.bookings, x.id = bid → (f x).ical_uid = x.ical_uid)
    (hsc : ∀ x ∈ db.bookings, x.id = bid →
      ical_scope pid (f x) = ical_scope pid x) :
    coherent pid dict (update_booking db bid f) := by
  intro q hq
  obtain ⟨hne, c, hc, h1, h2, h3⟩ := hcoh q hq
  refine ⟨hne, if c.id = bid then f c else c, mem_update_booking_of_mem bid f hc,
    ?_, ?_, ?_⟩
  · by_cases h : c.id = bid
    · rw [if_pos h, hid c hc h]; exact h1
    · rw [if_neg h]; exact h1
  · by_cases h : c.id = bid
    · rw [if_pos h, huid c hc h]; exact h2
    · rw [if_neg h]; exact h2
  · by_cases h : c.id = bid
    · rw [if_pos h, hsc c hc h]; exact h3
    · rw [if_neg h]; exact h3

theorem coherent_append {pid : Nat} {dict : List (String × Nat)} {db : SyncDB}
    {nb : Booking} {n : Nat} (hcoh : coherent pid dict db) :
    coherent pid dict ⟨db.bookings ++ [nb], n⟩ := by
  intro q hq
  obtain ⟨hne, c, hc, h1, h2, h3⟩ := hcoh q hq
  exact ⟨hne, c, List.mem_append_left _ hc, h1, h2, h3⟩

theorem stable_sync_step (now : Nat) {pid : Nat} {dict : List (String × Nat)}
    {st : SyncState} (e : FeedEvent) (hst : stable pid dict st.db) :
    stable pid dict (sync_step pid now dict st e).1.db ∧
      st.db.next_id ≤ (sync_step pid now dict st e).1.db.next_id := by
  cases hdf : dict_find dict e.uid with
  | some bid =>
    cases hfb : find_booking st.db bid with
    | some b =>
      cases hch : (update_if_changed b e now).2 with
      | false =>
        rw [sync_step_known_nochange hdf hfb hch]
        exact ⟨hst, le_refl _⟩
      | true =>
        rw [sync_step_known_change hdf hfb hch]
        obtain ⟨sid, sprop, suid, ssrc, _, _, _, _⟩ := update_if_changed_spec b e now
        have hbm := find_booking_mem hfb
        have hxb : ∀ x, x ∈ st.db.bookings → x.id = bid → x = b := by
          intro x hx hxid
          exact id_unique (wf_ids hst.1) hx hbm.1 (by rw [hxid, hbm.2])
        have hid : ∀ x ∈ st.db.bookings, x.id = bid →
            ((fun _ => (update_if_changed b e now).1) x).id = x.id := by
          intro x hx hxid
          obtain rfl := hxb x hx hxid
          exact sid
        have huid : ∀ x ∈ st.db.bookings, x.id = bid →
            ((fun _ => (update_if_changed b e now).1) x).ical_uid = x.ical_uid := by
          intro x hx hxid
          obtain rfl := hxb x hx hxid
          exact suid
        refine ⟨⟨wf_update_booking hst.1 hid huid, ?_⟩, ?_⟩
        · apply coherent_update hst.2 hid huid
          intro x hx hxid
          obtain rfl := hxb x hx hxid
          simp [ical_scope, sprop, ssrc]
        · exact le_of_eq update_booking_next.symm
    | none =>
      rw [sync_step_known_missing hdf hfb]
      exact ⟨hst, le_refl _⟩
  | none =>
    cases hc : uid_conflict st.db e.uid with
    | true =>
      rw [sync_step_conflict hdf hc]
      exact ⟨hst, le_refl _⟩
    | false =>
      rw [sync_step_create hdf hc]
      refine ⟨⟨?_, coherent_append hst.2⟩, ?_⟩
      · exact wf_insert hst.1 rfl
          (fun x hx => uid_distinct_of_no_conflict hc hx rfl)
      · exact Nat.le_succ _

theorem stable_sync_events {pid now : Nat} {dict : List (String × Nat)} :
    ∀ (rest : List FeedEvent) (st : SyncState), stable pid dict st.db →
      stable pid dict (sync_events pid now dict st rest).1.db ∧
        st.db.next_id ≤ (sync_events pid now dict st rest).1.db.next_id := by
  intro rest
  induction rest with
  | nil =>
    intro st h
    rw [sync_events_nil]
    exact ⟨h, le_refl _⟩
  | cons e es ih =>
    intro st h
    rw [sync_events_cons]
    have hs := stable_sync_step now e h
    cases hstep : sync_step pid now dict st e with
    | mk st1 ok =>
      rw [hstep] at hs
      cases ok with
      | true =>
        have h2 := ih st1 hs.1
        exact ⟨h2.1, le_trans hs.2 h2.2⟩
      | false =>
        exact ⟨hs.1, hs.2⟩

theorem sync_step_seen (pid now : Nat) (dict : List (String × Nat))
    (st : SyncState) (e : FeedEvent) :
    (sync_step pid now dict st e).1.seen = st.seen ++ [e.uid] := by
  cases hdf : dict_find dict e.uid with
  | some bid =>
    cases hfb : find_booking st.db bid with
    | some b =>
      cases hch : (update_if_changed b e now).2 with
      | false => rw [sync_step_known_nochange hdf hfb hch]
      | true => rw [sync_step_known_change hdf hfb hch]
    | none => rw [sync_step_known_missing hdf hfb]
  | none =>
    cases hc : uid_conflict st.db e.uid with
    | true => rw [sync_step_conflict hdf hc]
    | false => rw [sync_step_create hdf hc]

theorem sync_events_cons_ok {pid now : Nat} {dict : List (String × Nat)}
    {st st1 : SyncState} {e : FeedEvent} {es : List FeedEvent}
    (h : sync_step pid now dict st e = (st1, true)) :
    sync_events pid now dict st (e :: es) = sync_events pid now dict st1 es := by
  rw [sync_events_cons, h]

theorem sync_events_cons_fail {pid now : Nat} {dict : List (String × Nat)}
    {st st1 : SyncState} {e : FeedEvent} {es : List FeedEvent}
    (h : sync_step pid now dict st e = (st1, false)) :
    sync_events pid now dict st (e :: es) = (st1, false) := by
  rw [sync_events_cons, h]

/-- Exhaustive case split for one step of the event loop. -/
theorem sync_step_cases (pid now : Nat) (dict : List (String × Nat))
    (st : SyncState) (e : FeedEvent) :
    (∃ bid b, dict_find dict e.uid = some bid ∧
      find_booking st.db bid = some b ∧ (update_if_changed b e now).2 = true ∧
      sync_step pid now dict st e =
        ({ db := update_booking st.db bid (fun _ => (update_if_changed b e now).1)
           seen := st.seen ++ [e.uid]
           events := st.events ++ [⟨EventType.booking_modified, bid, pid⟩] }, true)) ∨
    (∃ bid b, dict_find dict e.uid = some bid ∧
      find_booking st.db bid = some b ∧ (update_if_changed b e now).2 = false ∧
      sync_step pid now dict st e = ({ st with seen := st.seen ++ [e.uid] }, true)) ∨
    (∃ bid, dict_find dict e.uid = some bid ∧ find_booking st.db bid = none ∧
      sync_step pid now dict st e = ({ st with seen := st.seen ++ [e.uid] }, true)) ∨
    (dict_find dict e.uid = none ∧ uid_conflict st.db e.uid = true ∧
      sync_step pid now dict st e = ({ st with seen := st.seen ++ [e.uid] }, false)) ∨
    (dict_find dict e.uid = none ∧ uid_conflict st.db e.uid = false ∧
      sync_step pid now dict st e =
        ({ db := { bookings := st.db.bookings ++ [fresh_booking pid now st.db.next_id e]
                   next_id := st.db.next_id + 1 }
           seen := st.seen ++ [e.uid]
           events := st.events ++ [⟨EventType.booking_new, st.db.next_id, pid⟩] }, true)) := by
  cases hdf : dict_find dict e.uid with
  | some bid =>
    cases hfb : find_booking st.db bid with
    | some b =>
      cases hch : (update_if_changed b e now).2 with
      | true =>
        exact Or.inl ⟨bid, b, rfl, hfb, hch, sync_step_known_change hdf hfb hch⟩
      | false =>
        exact Or.inr (Or.inl ⟨bid, b, rfl, hfb, hch,
          sync_step_known_nochange hdf hfb hch⟩)
    | none =>
      exact Or.inr (Or.inr (Or.inl ⟨bid, rfl, hfb,
        sync_step_known_missing hdf hfb⟩))
  | none =>
    cases hc : uid_conflict st.db e.uid with
    | true =>
      exact Or.inr (Or.inr (Or.inr (Or.inl ⟨rfl, rfl,
        sync_step_conflict hdf hc⟩)))
    | false =>
      exact Or.inr (Or.inr (Or.inr (Or.inr ⟨rfl, rfl,
        sync_step_create hdf hc⟩)))

theorem mem_update_booking_of_ne {db : SyncDB} {bid : Nat}
    {f : Booking → Booking} {b : Booking} (hb : b ∈ db.bookings)
    (hne : ¬(b.id = bid)) : b ∈ (update_booking db bid f).bookings := by
  have h := mem_update_booking_of_mem bid f hb
  rwa [if_neg hne] at h

/-- A row whose uid differs from the looked-up key has a different
primary key than the dictionary hit. -/
theorem owner_id_ne {pid : Nat} {dict : List (String × Nat)} {db : SyncDB}
    (hst : stable pid dict db) {u v : String} {bid : Nat}
    (hdf : dict_find dict v = some bid) {b : Booking} (hb : b ∈ db.bookings)
    (hu : b.ical_uid = some u) (hne : ¬(u = v)) : ¬(b.id = bid) := by
  intro hbid
  obtain ⟨c, hfc, hcid, hcuid, _, _⟩ := find_booking_coherent hst hdf
  obtain rfl : b = c :=
    id_unique (wf_ids hst.1) hb (find_booking_mem hfc).1 (by rw [hbid, hcid])
  rw [hu] at hcuid
  exact hne (Option.some.inj hcuid)

/-- A booking whose uid is not mentioned by the remaining feed events is
carried through the event loop verbatim (even across an abort). -/
theorem sync_events_untouched (now : Nat) {pid : Nat}
    {dict : List (String × Nat)} :
    ∀ (rest : List FeedEvent) (st : SyncState) (b : Booking) (u : String),
      stable pid dict st.db → b ∈ st.db.bookings → b.ical_uid = some u →
      u ∉ rest.map FeedEvent.uid →
      b ∈ (sync_events pid now dict st rest).1.db.bookings := by
  intro rest
  induction rest with
  | nil =>
    intro st b u _ hb _ _
    rw [sync_events_nil]
    exact hb
  | cons e es ih =>
    intro st b u hst hb hu hnm
    simp only [List.map_cons, List.mem_cons, not_or] at hnm
    have hstable := stable_sync_step now e hst
    rcases sync_step_cases pid now dict st e with
      ⟨bid, c, hdf, hfb, hch, heq⟩ | ⟨bid, c, hdf, hfb, hch, heq⟩ |
      ⟨bid, hdf, hfb, heq⟩ | ⟨hdf, hc, heq⟩ | ⟨hdf, hc, heq⟩
    · rw [sync_events_cons_ok heq]
      rw [heq] at hstable
      have hbne : ¬(b.id = bid) := owner_id_ne hst hdf hb hu hnm.1
      exact ih _ b u hstable.1 (mem_update_booking_of_ne hb hbne) hu hnm.2
    · rw [sync_events_cons_ok heq]
      rw [heq] at hstable
      exact ih _ b u hstable.1 hb hu hnm.2
    · rw [sync_events_cons_ok heq]
      rw [heq] at hstable
      exact ih _ b u hstable.1 hb hu hnm.2
    · rw [sync_events_cons_fail heq]
      exact hb
    · rw [sync_events_cons_ok heq]
      rw [heq] at hstable
      exact ih _ b u hstable.1 (List.mem_append_left _ hb) hu hnm.2

theorem dict_values_inj {pid : Nat} {dict : List (String × Nat)} {db : SyncDB}
    (hst : stable pid dict db) {u v : String} {B : Nat}
    (hu : (u, B) ∈ dict) (hv : (v, B) ∈ dict) : u = v := by
  obtain ⟨_, b, hb, hb1, hb2, _⟩ := hst.2 _ hu
  obtain ⟨_, c, hc, hc1, hc2, _⟩ := hst.2 _ hv
  obtain rfl : b = c := id_unique (wf_ids hst.1) hb hc (by rw [hb1, hc1])
  rw [hb2] at hc2
  exact Option.some.inj hc2

theorem uid_conflict_false_iff {db : SyncDB} {u : String} :
    uid_conflict db u = false ↔ ∀ b ∈ db.bookings, ¬(b.ical_uid = some u) := by
  unfold uid_conflict
  rw [← Bool.not_eq_true, List.any_eq_true]
  simp

theorem uid_conflict_step (now : Nat) {pid : Nat} {dict : List (String × Nat)}
    {st : SyncState} (e : FeedEvent) (hst : stable pid dict st.db) {w : String}
    (hcf : uid_conflict st.db w = true) :
    uid_conflict (sync_step pid now dict st e).1.db w = true := by
  unfold uid_conflict at hcf
  rw [List.any_eq_true] at hcf
  obtain ⟨x, hx, hxw⟩ := hcf
  simp only [decide_eq_true_eq] at hxw
  rcases sync_step_cases pid now dict st e with
    ⟨bid, b, hdf, hfb, hch, heq⟩ | ⟨bid, b, hdf, hfb, hch, heq⟩ |
    ⟨bid, hdf, hfb, heq⟩ | ⟨hdf, hc, heq⟩ | ⟨hdf, hc, heq⟩
  · rw [heq]
    obtain ⟨_, _, suid, _, _, _, _, _⟩ := update_if_changed_spec b e now
    unfold uid_conflict
    rw [List.any_eq_true]
    refine ⟨if x.id = bid then (update_if_changed b e now).1 else x,
      mem_update_booking_of_mem bid (fun _ => (update_if_changed b e now).1) hx, ?_⟩
    by_cases h : x.id = bid
    · obtain rfl : x = b := id_unique (wf_ids hst.1) hx (find_booking_mem hfb).1
        (by rw [h, (find_booking_mem hfb).2])
      simp [if_pos h, suid, hxw]
    · simp [if_neg h, hxw]
  · rw [heq]
    unfold uid_conflict
    rw [List.any_eq_true]
    exact ⟨x, hx, by simp [hxw]⟩
  · rw [heq]
    unfold uid_conflict
    rw [List.any_eq_true]
    exact ⟨x, hx, by simp [hxw]⟩
  · rw [heq]
    unfold uid_conflict
    rw [List.any_eq_true]
    exact ⟨x, hx, by simp [hxw]⟩
  · rw [heq]
    unfold uid_conflict
    rw [List.any_eq_true]
    exact ⟨x, List.mem_append_left _ hx, by simp [hxw]⟩

/-- Events for a fresh primary key that is no dictionary value are never
published by the event loop. -/
theorem sync_events_count_fresh {pid now : Nat} {dict : List (String × Nat)} :
    ∀ (rest : List FeedEvent) (st : SyncState) (B : Nat),
      stable pid dict st.db → B < st.db.next_id → (∀ q ∈ dict, q.2 ≠ B) →
      (sync_events pid now dict st rest).1.events.countP
          (fun ev => decide (ev.booking_id = B)) =
        st.events.countP (fun ev => decide (ev.booking_id = B)) := by
  intro rest
  induction rest with
  | nil =>
    intro st B _ _ _
    rw [sync_events_nil]
  | cons e es ih =>
    intro st B hst hB hvals
    have hstable := stable_sync_step now e hst
    rcases sync_step_cases pid now dict st e with
      ⟨bid, b, hdf, hfb, hch, heq⟩ | ⟨bid, b, hdf, hfb, hch, heq⟩ |
      ⟨bid, hdf, hfb, heq⟩ | ⟨hdf, hc, heq⟩ | ⟨hdf, hc, heq⟩
    · rw [sync_events_cons_ok heq]
      rw [heq] at hstable
      have hbne : bid ≠ B := hvals _ (dict_find_mem hdf)
      rw [ih _ B hstable.1 (by rw [update_booking_next]; exact hB) hvals]
      rw [List.countP_append]
      simp [hbne]
    · rw [sync_events_cons_ok heq]
      rw [heq] at hstable
      exact ih _ B hstable.1 hB hvals
    · rw [sync_events_cons_ok heq]
      rw [heq] at hstable
      exact ih _ B hstable.1 hB hvals
    · rw [sync_events_cons_fail heq]
    · rw [sync_events_cons_ok heq]
      rw [heq] at hstable
      have hne : ¬(st.db.next_id = B) := by omega
      rw [ih _ B hstable.1 (by simp; omega) hvals]
      rw [List.countP_append]
      simp [hne]

/-- Events for a dictionary entry whose key the remaining feed does not
mention are never published by the event loop. -/
theorem sync_events_count_key {pid now : Nat} {dict : List (String × Nat)} :
    ∀ (rest : List FeedEvent) (st : SyncState) (u : String) (B : Nat),
      stable pid dict st.db → (u, B) ∈ dict → u ∉ rest.map FeedEvent.uid →
      B < st.db.next_id →
      (sync_events pid now dict st rest).1.events.countP
          (fun ev => decide (ev.booking_id = B)) =
        st.events.countP (fun ev => decide (ev.booking_id = B)) := by
  intro rest
  induction rest with
  | nil =>
    intro st u B _ _ _ _
    rw [sync_events_nil]
  | cons e es ih =>
    intro st u B hst hmem hnm hB
    simp only [List.map_cons, List.mem_cons, not_or] at hnm
    have hstable := stable_sync_step now e hst
    rcases sync_step_cases pid now dict st e with
      ⟨bid, b, hdf, hfb, hch, heq⟩ | ⟨bid, b, hdf, hfb, hch, heq⟩ |
      ⟨bid, hdf, hfb, heq⟩ | ⟨hdf, hc, heq⟩ | ⟨hdf, hc, heq⟩
    · rw [sync_events_cons_ok heq]
      rw [heq] at hstable
      have hbne : ¬(bid = B) := by
        intro h
        subst h
        exact hnm.1 (dict_values_inj hst hmem (dict_find_mem hdf))
      rw [ih _ u B hstable.1 hmem hnm.2 (by rw [update_booking_next]; exact hB)]
      rw [List.countP_append]
      simp [hbne]
    · rw [sync_events_cons_ok heq]
      rw [heq] at hstable
      exact ih _ u B hstable.1 hmem hnm.2 hB
    · rw [sync_events_cons_ok heq]
      rw [heq] at hstable
      exact ih _ u B hstable.1 hmem hnm.2 hB
    · rw [sync_events_cons_fail heq]
    · rw [sync_events_cons_ok heq]
      rw [heq] at hstable
      have hne : ¬(st.db.next_id = B) := by omega
      rw [ih _ u B hstable.1 hmem hnm.2 (by simp; omega)]
      rw [List.countP_append]
      simp [hne]

/-- Once a row holds a uid that the dictionary does not know, a
successful event loop cannot mention that uid again. -/
theorem sync_events_no_refresh {pid now : Nat} {dict : List (String × Nat)} :
    ∀ (rest : List FeedEvent) (st : SyncState) (w : String),
      stable pid dict st.db →
      uid_conflict st.db w = true → dict_find dict w = none →
      (sync_events pid now dict st rest).2 = true →
      w ∉ rest.map FeedEvent.uid := by
  intro rest
  induction rest with
  | nil =>
    intro st w _ _ _ _
    simp
  | cons e es ih =>
    intro st w hst hcf hdfw hok
    simp only [List.map_cons, List.mem_cons, not_or]
    have hstable := stable_sync_step now e hst
    have hcf' := uid_conflict_step now e hst hcf
    rcases sync_step_cases pid now dict st e with
      ⟨bid, b, hdf, hfb, hch, heq⟩ | ⟨bid, b, hdf, hfb, hch, heq⟩ |
      ⟨bid, hdf, hfb, heq⟩ | ⟨hdf, hc, heq⟩ | ⟨hdf, hc, heq⟩
    · rw [sync_events_cons_ok heq] at hok
      rw [heq] at hstable hcf'
      refine ⟨?_, ih _ w hstable.1 hcf' hdfw hok⟩
      intro hwe
      rw [← hwe, hdfw] at hdf
      cases hdf
    · rw [sync_events_cons_ok heq] at hok
      rw [heq] at hstable hcf'
      refine ⟨?_, ih _ w hstable.1 hcf' hdfw hok⟩
      intro hwe
      rw [← hwe, hdfw] at hdf
      cases hdf
    · rw [sync_events_cons_ok heq] at hok
      rw [heq] at hstable hcf'
      refine ⟨?_, ih _ w hstable.1 hcf' hdfw hok⟩
      intro hwe
      rw [← hwe, hdfw] at hdf
      cases hdf
    · rw [sync_events_cons_fail heq] at hok
      cases hok
    · rw [sync_events_cons_ok heq] at hok
      rw [heq] at hstable hcf'
      refine ⟨?_, ih _ w hstable.1 hcf' hdfw hok⟩
      intro hwe
      rw [← hwe, hcf] at hc
      cases hc

/-- When every remaining feed event hits a dictionary entry, the event
loop cannot abort. -/
theorem sync_events_all_known {pid now : Nat} {dict : List (String × Nat)} :
    ∀ (rest : List FeedEvent) (st : SyncState), stable pid dict st.db →
      (∀ e ∈ rest, ∃ bid, dict_find dict e.uid = some bid) →
      (sync_events pid now dict st rest).2 = true := by
  intro rest
  induction rest with
  | nil =>
    intro st _ _
    rw [sync_events_nil]
  | cons e es ih =>
    intro st hst hknown
    have hstable := stable_sync_step now e hst
    rcases sync_step_cases pid now dict st e with
      ⟨bid, b, hdf, hfb, hch, heq⟩ | ⟨bid, b, hdf, hfb, hch, heq⟩ |
      ⟨bid, hdf, hfb, heq⟩ | ⟨hdf, hc, heq⟩ | ⟨hdf, hc, heq⟩
    · rw [sync_events_cons_ok heq]
      rw [heq] at hstable
      exact ih _ hstable.1 (fun e' he' => hknown e' (List.mem_cons_of_mem e he'))
    · rw [sync_events_cons_ok heq]
      rw [heq] at hstable
      exact ih _ hstable.1 (fun e' he' => hknown e' (List.mem_cons_of_mem e he'))
    · rw [sync_events_cons_ok heq]
      rw [heq] at hstable
      exact ih _ hstable.1 (fun e' he' => hknown e' (List.mem_cons_of_mem e he'))
    · obtain ⟨bid, hbid⟩ := hknown e (List.mem_cons_self e es)
      rw [hbid] at hdf
      cases hdf
    · obtain ⟨bid, hbid⟩ := hknown e (List.mem_cons_self e es)
      rw [hbid] at hdf
      cases hdf

/-- A replay in which every event already matches its stored row only
collects the seen uids. -/
theorem sync_events_noop {pid now : Nat} {dict : List (String × Nat)} :
    ∀ (rest : List FeedEvent) (st : SyncState),
      (∀ e ∈ rest, ∃ bid b, dict_find dict e.uid = some bid ∧
        find_booking st.db bid = some b ∧ (update_if_changed b e now).2 = false) →
      sync_events pid now dict st rest =
        ({ st with seen := st.seen ++ rest.map FeedEvent.uid }, true) := by
  intro rest
  induction rest with
  | nil =>
    intro st _
    rw [sync_events_nil]
    simp
  | cons e es ih =>
    intro st hall
    obtain ⟨bid, b, hdf, hfb, hnc⟩ := hall e (List.mem_cons_self e es)
    rw [sync_events_cons_ok (sync_step_known_nochange hdf hfb hnc)]
    rw [ih ({ st with seen := st.seen ++ [e.uid] })
      (fun e' he' => hall e' (List.mem_cons_of_mem e he'))]
    simp

/-- Every row added by the event loop was created from a remaining feed
event whose uid was unknown — both to the dictionary and to the whole
table at creation time. -/
theorem sync_events_created {pid now : Nat} {dict : List (String × Nat)}
    (N : Nat) (hvals : ∀ q ∈ dict, q.2 < N) :
    ∀ (rest : List FeedEvent) (st : SyncState),
      stable pid dict st.db → N ≤ st.db.next_id →
      ∀ x ∈ (sync_events pid now dict st rest).1.db.bookings, N ≤ x.id →
        x ∈ st.db.bookings ∨
        (x.property_id = pid ∧ x.source = BookingSource.ical ∧
          x.status = BookingStatus.confirmed ∧
          ∃ e ∈ rest, x.ical_uid = some e.uid ∧ matches_event x e ∧
            dict_find dict e.uid = none ∧
            (∀ b0 ∈ st.db.bookings, ¬(b0.ical_uid = some e.uid))) := by
  intro rest
  induction rest with
  | nil =>
    intro st _ _ x hx _
    rw [sync_events_nil] at hx
    exact Or.inl hx
  | cons e es ih =>
    intro st hst hN x hx hxid
    have hstable := stable_sync_step now e hst
    rcases sync_step_cases pid now dict st e with
      ⟨bid, b, hdf, hfb, hch, heq⟩ | ⟨bid, b, hdf, hfb, hch, heq⟩ |
      ⟨bid, hdf, hfb, heq⟩ | ⟨hdf, hc, heq⟩ | ⟨hdf, hc, heq⟩
    · rw [sync_events_cons_ok heq] at hx
      rw [heq] at hstable
      obtain ⟨sid, _, suid, _, _, _, _, _⟩ := update_if_changed_spec b e now
      have hbm := find_booking_mem hfb
      rcases ih _ hstable.1 (by rw [update_booking_next]; exact hN) x hx hxid with
        hmem | ⟨h1, h2, h3, e', he', h4, h5, h6, h7⟩
      · obtain ⟨y, hy, hxy⟩ := mem_update_booking hmem
        by_cases h : y.id = bid
        · exfalso
          rw [hxy, if_pos h] at hxid
          rw [sid] at hxid
          have : bid < N := hvals _ (dict_find_mem hdf)
          rw [hbm.2] at hxid
          omega
        · rw [hxy, if_neg h]
          exact Or.inl hy
      · refine Or.inr ⟨h1, h2, h3, e', List.mem_cons_of_mem e he', h4, h5, h6, ?_⟩
        intro b0 hb0
        have h8 := h7 (if b0.id = bid then (update_if_changed b e now).1 else b0)
          (mem_update_booking_of_mem bid (fun _ => (update_if_changed b e now).1) hb0)
        by_cases h : b0.id = bid
        · rw [if_pos h] at h8
          rw [suid] at h8
          obtain rfl : b0 = b := id_unique (wf_ids hst.1) hb0 hbm.1
            (by rw [h, hbm.2])
          exact h8
        · rw [if_neg h] at h8
          exact h8
    · rw [sync_events_cons_ok heq] at hx
      rw [heq] at hstable
      rcases ih _ hstable.1 hN x hx hxid with
        hmem | ⟨h1, h2, h3, e', he', h4, h5, h6, h7⟩
      · exact Or.inl hmem
      · exact Or.inr ⟨h1, h2, h3, e', List.mem_cons_of_mem e he', h4, h5, h6, h7⟩
    · rw [sync_events_cons_ok heq] at hx
      rw [heq] at hstable
      rcases ih _ hstable.1 hN x hx hxid with
        hmem | ⟨h1, h2, h3, e', he', h4, h5, h6, h7⟩
      · exact Or.inl hmem
      · exact Or.inr ⟨h1, h2, h3, e', List.mem_cons_of_mem e he', h4, h5, h6, h7⟩
    · rw [sync_events_cons_fail heq] at hx
      exact Or.inl hx
    · rw [sync_events_cons_ok heq] at hx
      rw [heq] at hstable
      have hfr := uid_conflict_false_iff.mp hc
      rcases ih _ hstable.1 (by simp; omega) x hx hxid with
        hmem | ⟨h1, h2, h3, e', he', h4, h5, h6, h7⟩
      · rcases List.mem_append.mp hmem with hm | hm
        · exact Or.inl hm
        · rw [List.mem_singleton.mp hm]
          refine Or.inr ⟨rfl, rfl, rfl, e, List.mem_cons_self e es, rfl, ?_, hdf, hfr⟩
          exact ⟨rfl, rfl, rfl⟩
      · refine Or.inr ⟨h1, h2, h3, e', List.mem_cons_of_mem e he', h4, h5, h6, ?_⟩
        intro b0 hb0
        exact h7 b0 (List.mem_append_left _ hb0)

/-- Rows that already existed keep their identity, uid, scope and status
through the event loop. -/
theorem sync_events_old_core {pid now : Nat} {dict : List (String × Nat)} :
    ∀ (rest : List FeedEvent) (st : SyncState), stable pid dict st.db →
      ∀ x ∈ (sync_events pid now dict st rest).1.db.bookings,
        x.id < st.db.next_id →
        ∃ y ∈ st.db.bookings, y.id = x.id ∧ x.ical_uid = y.ical_uid ∧
          x.property_id = y.property_id ∧ x.source = y.source ∧
          x.status = y.status := by
  intro rest
  induction rest with
  | nil =>
    intro st _ x hx _
    rw [sync_events_nil] at hx
    exact ⟨x, hx, rfl, rfl, rfl, rfl, rfl⟩
  | cons e es ih =>
    intro st hst x hx hxid
    have hstable := stable_sync_step now e hst
    rcases sync_step_cases pid now dict st e with
      ⟨bid, b, hdf, hfb, hch, heq⟩ | ⟨bid, b, hdf, hfb, hch, heq⟩ |
      ⟨bid, hdf, hfb, heq⟩ | ⟨hdf, hc, heq⟩ | ⟨hdf, hc, heq⟩
    · rw [sync_events_cons_ok heq] at hx
      rw [heq] at hstable
      obtain ⟨sid, sprop, suid, ssrc, sstat, _, _, _⟩ := update_if_changed_spec b e now
      have hbm := find_booking_mem hfb
      obtain ⟨y1, hy1, hid1, huid1, hprop1, hsrc1, hstat1⟩ :=
        ih _ hstable.1 x hx (by dsimp only [update_booking]; exact hxid)
      obtain ⟨y, hy, hy1y⟩ := mem_update_booking hy1
      by_cases h : y.id = bid
      · obtain rfl : y = b := id_unique (wf_ids hst.1) hy hbm.1 (by rw [h, hbm.2])
        rw [hy1y, if_pos h] at hid1 huid1 hprop1 hsrc1 hstat1
        exact ⟨y, hy, by rw [← hid1, sid], by rw [huid1, suid],
          by rw [hprop1, sprop], by rw [hsrc1, ssrc], by rw [hstat1, sstat]⟩
      · rw [hy1y, if_neg h] at hid1 huid1 hprop1 hsrc1 hstat1
        exact ⟨y, hy, hid1, huid1, hprop1, hsrc1, hstat1⟩
    · rw [sync_events_cons_ok heq] at hx
      rw [heq] at hstable
      exact ih _ hstable.1 x hx hxid
    · rw [sync_events_cons_ok heq] at hx
      rw [heq] at hstable
      exact ih _ hstable.1 x hx hxid
    · rw [sync_events_cons_fail heq] at hx
      exact ⟨x, hx, rfl, rfl, rfl, rfl, rfl⟩
    · rw [sync_events_cons_ok heq] at hx
      rw [heq] at hstable
      obtain ⟨y1, hy1, hid1, huid1, hprop1, hsrc1, hstat1⟩ := ih _ hstable.1 x hx
        (by dsimp only; omega)
      rcases List.mem_append.mp hy1 with hm | hm
      · exact ⟨y1, hm, hid1, huid1, hprop1, hsrc1, hstat1⟩
      · exfalso
        rw [List.mem_singleton.mp hm] at hid1
        simp only [fresh_booking] at hid1
        omega

/-- Every event the loop leaves behind references a row id below the
current counter. -/
theorem sync_events_ev_bound {pid now : Nat} {dict : List (String × Nat)} :
    ∀ (rest : List FeedEvent) (st : SyncState), stable pid dict st.db →
      (∀ ev ∈ st.events, ev.booking_id < st.db.next_id) →
      ∀ ev ∈ (sync_events pid now dict st rest).1.events,
        ev.booking_id < (sync_events pid now dict st rest).1.db.next_id := by
  intro rest
  induction rest with
  | nil =>
    intro st _ hev ev hv
    rw [sync_events_nil] at hv ⊢
    exact hev ev hv
  | cons e es ih =>
    intro st hst hev
    have hstable := stable_sync_step now e hst
    rcases sync_step_cases pid now dict st e with
      ⟨bid, b, hdf, hfb, hch, heq⟩ | ⟨bid, b, hdf, hfb, hch, heq⟩ |
      ⟨bid, hdf, hfb, heq⟩ | ⟨hdf, hc, heq⟩ | ⟨hdf, hc, heq⟩
    · rw [sync_events_cons_ok heq]
      rw [heq] at hstable
      apply ih _ hstable.1
      intro ev hv
      dsimp only [update_booking] at hv ⊢
      rcases List.mem_append.mp hv with hm | hm
      · exact hev ev hm
      · rw [List.mem_singleton.mp hm]
        obtain ⟨c, hfc, hcid, _, _, _⟩ := find_booking_coherent hst hdf
        have hcb := wf_bound hst.1 c (find_booking_mem hfc).1
        dsimp only
        omega
    · rw [sync_events_cons_ok heq]
      rw [heq] at hstable
      exact ih _ hstable.1 hev
    · rw [sync_events_cons_ok heq]
      rw [heq] at hstable
      exact ih _ hstable.1 hev
    · rw [sync_events_cons_fail heq]
      exact hev
    · rw [sync_events_cons_ok heq]
      rw [heq] at hstable
      apply ih _ hstable.1
      intro ev hv
      dsimp only at hv ⊢
      rcases List.mem_append.mp hv with hm | hm
      · have := hev ev hm
        omega
      · rw [List.mem_singleton.mp hm]
        dsimp only
        omega

theorem sync_step_events_ext (pid now : Nat) (dict : List (String × Nat))
    (st : SyncState) (e : FeedEvent) :
    ∃ t0, (sync_step pid now dict st e).1.events = st.events ++ t0 := by
  rcases sync_step_cases pid now dict st e with
    ⟨bid, b, hdf, hfb, hch, heq⟩ | ⟨bid, b, hdf, hfb, hch, heq⟩ |
    ⟨bid, hdf, hfb, heq⟩ | ⟨hdf, hc, heq⟩ | ⟨hdf, hc, heq⟩
  · exact ⟨[⟨EventType.booking_modified, bid, pid⟩], by rw [heq]⟩
  · exact ⟨[], by rw [heq]; simp⟩
  · exact ⟨[], by rw [heq]; simp⟩
  · exact ⟨[], by rw [heq]; simp⟩
  · exact ⟨[⟨EventType.booking_new, st.db.next_id, pid⟩], by rw [heq]⟩

theorem sync_events_events_ext {pid now : Nat} {dict : List (String × Nat)} :
    ∀ (rest : List FeedEvent) (st : SyncState),
      ∃ tail, (sync_events pid now dict st rest).1.events = st.events ++ tail := by
  intro rest
  induction rest with
  | nil =>
    intro st
    rw [sync_events_nil]
    exact ⟨[], by simp⟩
  | cons e es ih =>
    intro st
    obtain ⟨t0, ht0⟩ := sync_step_events_ext pid now dict st e
    cases hstep : sync_step pid now dict st e with
    | mk st1 ok =>
      rw [hstep] at ht0
      dsimp only at ht0
      cases ok with
      | true =>
        rw [sync_events_cons_ok hstep]
        obtain ⟨t1, ht1⟩ := ih st1
        exact ⟨t0 ++ t1, by rw [ht1, ht0]; simp⟩
      | false =>
        rw [sync_events_cons_fail hstep]
        exact ⟨t0, ht0⟩

/-- After a successful event loop over a duplicate-free feed, every feed
event has a scoped stored row matching it exactly. -/
theorem sync_events_owners {pid now : Nat} {dict : List (String × Nat)} :
    ∀ (rest : List FeedEvent) (st : SyncState), stable pid dict st.db →
      (rest.map FeedEvent.uid).Nodup →
      (sync_events pid now dict st rest).2 = true →
      ∀ e ∈ rest, ∃ b ∈ (sync_events pid now dict st rest).1.db.bookings,
        ical_scope pid b = true ∧ b.ical_uid = some e.uid ∧ matches_event b e := by
  intro rest
  induction rest with
  | nil =>
    intro st _ _ _ e he
    cases he
  | cons e0 es ih =>
    intro st hst hnd hok e he
    simp only [List.map_cons, List.nodup_cons] at hnd
    have hstable := stable_sync_step now e0 hst
    rcases sync_step_cases pid now dict st e0 with
      ⟨bid, b, hdf, hfb, hch, heq⟩ | ⟨bid, b, hdf, hfb, hch, heq⟩ |
      ⟨bid, hdf, hfb, heq⟩ | ⟨hdf, hc, heq⟩ | ⟨hdf, hc, heq⟩
    · rw [sync_events_cons_ok heq] at hok ⊢
      rw [heq] at hstable
      rcases List.mem_cons.mp he with rfl | hes
      · obtain ⟨c, hfc, hcid, hcuid, hcscope, hcne⟩ := find_booking_coherent hst hdf
        obtain rfl : b = c := by
          rw [hfb] at hfc
          exact Option.some.inj hfc
        obtain ⟨sid, sprop, suid, ssrc, _, smat, _, _⟩ := update_if_changed_spec b e now
        have hbm := find_booking_mem hfb
        have hmem : (update_if_changed b e now).1 ∈
            (update_booking st.db bid (fun _ => (update_if_changed b e now).1)).bookings := by
          have h := mem_update_booking_of_mem bid
            (fun _ => (update_if_changed b e now).1) hbm.1
          rwa [if_pos hbm.2] at h
        have hfin := sync_events_untouched now es _
          ((update_if_changed b e now).1) e.uid hstable.1 hmem
          (by rw [suid]; exact hcuid) hnd.1
        refine ⟨(update_if_changed b e now).1, hfin, ?_, ?_, smat⟩
        · simp only [ical_scope, sprop, ssrc]
          simpa [ical_scope] using hcscope
        · rw [suid]
          exact hcuid
      · exact ih _ hstable.1 hnd.2 hok e hes
    · rw [sync_events_cons_ok heq] at hok ⊢
      rw [heq] at hstable
      rcases List.mem_cons.mp he with rfl | hes
      · obtain ⟨c, hfc, hcid, hcuid, hcscope, hcne⟩ := find_booking_coherent hst hdf
        obtain rfl : b = c := by
          rw [hfb] at hfc
          exact Option.some.inj hfc
        obtain ⟨_, _, _, _, _, _, hiff, _⟩ := update_if_changed_spec b e now
        have hbm := find_booking_mem hfb
        have hfin := sync_events_untouched now es _ b e.uid
          hstable.1 hbm.1 hcuid hnd.1
        exact ⟨b, hfin, hcscope, hcuid, hiff.mp hch⟩
      · exact ih _ hstable.1 hnd.2 hok e hes
    · obtain ⟨c, hfc, _, _, _, _⟩ := find_booking_coherent hst hdf
      rw [hfb] at hfc
      cases hfc
    · rw [sync_events_cons_fail heq] at hok
      cases hok
    · rw [sync_events_cons_ok heq] at hok ⊢
      rw [heq] at hstable
      rcases List.mem_cons.mp he with rfl | hes
      · have hmem : fresh_booking pid now st.db.next_id e ∈
            (st.db.bookings ++ [fresh_booking pid now st.db.next_id e]) :=
          List.mem_append_right _ (List.mem_singleton_self _)
        have hfin := sync_events_untouched now es _
          (fresh_booking pid now st.db.next_id e) e.uid hstable.1 hmem rfl hnd.1
        refine ⟨fresh_booking pid now st.db.next_id e, hfin, ?_, rfl, ?_⟩
        · simp [ical_scope, fresh_booking]
        · exact ⟨rfl, rfl, rfl⟩
      · exact ih _ hstable.1 hnd.2 hok e hes

/-! ### The cancellation loop -/

theorem cancel_missing_nil {pid now : Nat} {st : SyncState} :
    cancel_missing pid now [] st = st := rfl

theorem cancel_missing_cons {pid now : Nat} {q : String × Nat}
    {dict : List (String × Nat)} {st : SyncState} :
    cancel_missing pid now (q :: dict) st =
      cancel_missing pid now dict (cancel_step pid now st q) := rfl

theorem cancel_step_seen_mem (pid now : Nat) {st : SyncState}
    (q : String × Nat) (h : q.1 ∈ st.seen) : cancel_step pid now st q = st := by
  unfold cancel_step
  rw [if_pos h]

theorem cancel_step_missing (pid now : Nat) {st : SyncState}
    (q : String × Nat) (h1 : ¬(q.1 ∈ st.seen))
    (h2 : find_booking st.db q.2 = none) : cancel_step pid now st q = st := by
  unfold cancel_step
  rw [if_neg h1, h2]

theorem cancel_step_skip (pid now : Nat) {st : SyncState} (q : String × Nat)
    {b : Booking} (h1 : ¬(q.1 ∈ st.seen)) (h2 : find_booking st.db q.2 = some b)
    (h3 : ¬(b.status = BookingStatus.confirmed)) :
    cancel_step pid now st q = st := by
  unfold cancel_step
  rw [if_neg h1, h2]
  simp [h3]

theorem cancel_step_cancel (pid now : Nat) {st : SyncState} (q : String × Nat)
    {b : Booking} (h1 : ¬(q.1 ∈ st.seen)) (h2 : find_booking st.db q.2 = some b)
    (h3 : b.status = BookingStatus.confirmed) :
    cancel_step pid now st q =
      { st with
          db := update_booking st.db q.2 (cancel_row now)
          events := st.events ++ [⟨EventType.booking_cancelled, q.2, pid⟩] } := by
  unfold cancel_step
  rw [if_neg h1, h2]
  simp [h3]

/-- Exhaustive case split for one iteration of the cancellation loop. -/
theorem cancel_step_cases (pid now : Nat) (st : SyncState) (q : String × Nat) :
    (cancel_step pid now st q = st ∧
      (q.1 ∈ st.seen ∨ find_booking st.db q.2 = none ∨
        ∃ b, find_booking st.db q.2 = some b ∧
          ¬(b.status = BookingStatus.confirmed))) ∨
    (∃ b, find_booking st.db q.2 = some b ∧ b.status = BookingStatus.confirmed ∧
      ¬(q.1 ∈ st.seen) ∧
      cancel_step pid now st q =
        { st with
            db := update_booking st.db q.2 (cancel_row now)
            events := st.events ++ [⟨EventType.booking_cancelled, q.2, pid⟩] }) := by
  by_cases h1 : q.1 ∈ st.seen
  · exact Or.inl ⟨cancel_step_seen_mem pid now q h1, Or.inl h1⟩
  · cases h2 : find_booking st.db q.2 with
    | none => exact Or.inl ⟨cancel_step_missing pid now q h1 h2, Or.inr (Or.inl rfl)⟩
    | some b =>
      by_cases h3 : b.status = BookingStatus.confirmed
      · exact Or.inr ⟨b, rfl, h3, h1, cancel_step_cancel pid now q h1 h2 h3⟩
      · exact Or.inl ⟨cancel_step_skip pid now q h1 h2 h3, Or.inr (Or.inr ⟨b, rfl, h3⟩)⟩

theorem cancel_step_seen {pid now : Nat} {st : SyncState} {q : String × Nat} :
    (cancel_step pid now st q).seen = st.seen := by
  rcases cancel_step_cases pid now st q with ⟨heq, _⟩ | ⟨b, _, _, _, heq⟩ <;>
    rw [heq]

theorem cancel_step_next {pid now : Nat} {st : SyncState} {q : String × Nat} :
    (cancel_step pid now st q).db.next_id = st.db.next_id := by
  rcases cancel_step_cases pid now st q with ⟨heq, _⟩ | ⟨b, _, _, _, heq⟩ <;>
    simp only [heq, update_booking_next]

theorem stable_cancel_step {pid now : Nat} {dictc : List (String × Nat)}
    {st : SyncState} {q : String × Nat} (hst : stable pid dictc st.db) :
    stable pid dictc (cancel_step pid now st q).db := by
  rcases cancel_step_cases pid now st q with ⟨heq, _⟩ | ⟨b, _, _, _, heq⟩
  · rw [heq]; exact hst
  · rw [heq]
    refine ⟨wf_update_booking hst.1 (fun x _ _ => rfl) (fun x _ _ => rfl), ?_⟩
    exact coherent_update hst.2 (fun x _ _ => rfl) (fun x _ _ => rfl)
      (fun x _ _ => rfl)

theorem stable_cancel_missing {pid now : Nat} {dictc : List (String × Nat)} :
    ∀ (dict : List (String × Nat)) (st : SyncState),
      stable pid dictc st.db →
      stable pid dictc (cancel_missing pid now dict st).db := by
  intro dict
  induction dict with
  | nil => intro st h; rw [cancel_missing_nil]; exact h
  | cons q dict' ih =>
    intro st h
    rw [cancel_missing_cons]
    exact ih _ (stable_cancel_step h)

theorem cancel_missing_seen {pid now : Nat} :
    ∀ (dict : List (String × Nat)) (st : SyncState),
      (cancel_missing pid now dict st).seen = st.seen := by
  intro dict
  induction dict with
  | nil => intro st; rw [cancel_missing_nil]
  | cons q dict' ih =>
    intro st
    rw [cancel_missing_cons, ih, cancel_step_seen]

theorem cancel_missing_next {pid now : Nat} :
    ∀ (dict : List (String × Nat)) (st : SyncState),
      (cancel_missing pid now dict st).db.next_id = st.db.next_id := by
  intro dict
  induction dict with
  | nil => intro st; rw [cancel_missing_nil]
  | cons q dict' ih =>
    intro st
    rw [cancel_missing_cons, ih, cancel_step_next]

/-- Rows untouched by every dictionary entry survive the cancellation
loop verbatim. -/
theorem cancel_missing_untouched {pid now : Nat} :
    ∀ (dict : List (String × Nat)) (st : SyncState) (b : Booking),
      b ∈ st.db.bookings → (∀ q ∈ dict, q.2 ≠ b.id) →
      b ∈ (cancel_missing pid now dict st).db.bookings := by
  intro dict
  induction dict with
  | nil =>
    intro st b hb _
    rw [cancel_missing_nil]
    exact hb
  | cons q dict' ih =>
    intro st b hb hq
    rw [cancel_missing_cons]
    have hne : ¬(b.id = q.2) := fun h =>
      hq q (List.mem_cons_self q dict') (by rw [h])
    rcases cancel_step_cases pid now st q with ⟨heq, _⟩ | ⟨c, _, _, _, heq⟩
    · rw [heq]
      exact ih _ b hb (fun p hp => hq p (List.mem_cons_of_mem q hp))
    · rw [heq]
      exact ih _ b (mem_update_booking_of_ne hb hne)
        (fun p hp => hq p (List.mem_cons_of_mem q hp))

/-- Events for a row no dictionary entry references are not published by
the cancellation loop. -/
theorem cancel_missing_count_nomatch {pid now : Nat} :
    ∀ (dict : List (String × Nat)) (st : SyncState) (B : Nat),
      (∀ q ∈ dict, q.2 ≠ B) →
      (cancel_missing pid now dict st).events.countP
          (fun ev => decide (ev.booking_id = B)) =
        st.events.countP (fun ev => decide (ev.booking_id = B)) := by
  intro dict
  induction dict with
  | nil =>
    intro st B _
    rw [cancel_missing_nil]
  | cons q dict' ih =>
    intro st B hq
    rw [cancel_missing_cons]
    rcases cancel_step_cases pid now st q with ⟨heq, _⟩ | ⟨c, _, _, _, heq⟩
    · rw [heq]
      exact ih _ B (fun p hp => hq p (List.mem_cons_of_mem q hp))
    · rw [heq]
      rw [ih _ B (fun p hp => hq p (List.mem_cons_of_mem q hp))]
      rw [List.countP_append]
      simp [hq q (List.mem_cons_self q dict')]

theorem cancel_missing_events_ext (pid now : Nat) :
    ∀ (dict : List (String × Nat)) (st : SyncState),
      ∃ tail, (cancel_missing pid now dict st).events = st.events ++ tail := by
  intro dict
  induction dict with
  | nil =>
    intro st
    rw [cancel_missing_nil]
    exact ⟨[], by simp⟩
  | cons q dict' ih =>
    intro st
    rw [cancel_missing_cons]
    rcases cancel_step_cases pid now st q with ⟨heq, _⟩ | ⟨c, _, _, _, heq⟩
    · rw [heq]
      exact ih _
    · rw [heq]
      obtain ⟨tail, htail⟩ := ih ({ st with
        db := update_booking st.db q.2 (cancel_row now)
        events := st.events ++ [⟨EventType.booking_cancelled, q.2, pid⟩] })
      exact ⟨[⟨EventType.booking_cancelled, q.2, pid⟩] ++ tail,
        by rw [htail]; simp⟩

/-- The cancellation loop is a no-op when every entry is either seen or
points at a non-confirmed row. -/
theorem cancel_missing_noop {pid now : Nat} :
    ∀ (dict : List (String × Nat)) (st : SyncState),
      (∀ q ∈ dict, q.1 ∈ st.seen ∨
        (∀ b, find_booking st.db q.2 = some b →
          ¬(b.status = BookingStatus.confirmed))) →
      cancel_missing pid now dict st = st := by
  intro dict
  induction dict with
  | nil =>
    intro st _
    rw [cancel_missing_nil]
  | cons q dict' ih =>
    intro st hall
    rw [cancel_missing_cons]
    have hstep : cancel_step pid now st q = st := by
      rcases hall q (List.mem_cons_self q dict') with h | h
      · exact cancel_step_seen_mem pid now q h
      · by_cases h1 : q.1 ∈ st.seen
        · exact cancel_step_seen_mem pid now q h1
        · cases h2 : find_booking st.db q.2 with
          | none => exact cancel_step_missing pid now q h1 h2
          | some b => exact cancel_step_skip pid now q h1 h2 (h b h2)
    rw [hstep]
    exact ih _ (fun p hp => hall p (List.mem_cons_of_mem q hp))

/-- What one cancellation-loop pass does to the unique row behind one
unseen dictionary entry. -/
theorem cancel_missing_entry {pid now : Nat} :
    ∀ (dict : List (String × Nat)) (st : SyncState) (u : String) (B : Nat)
      (b : Booking),
      st.db.wf = true → (u, B) ∈ dict → (dict.map Prod.fst).Nodup →
      (∀ q ∈ dict, q.2 = B → q.1 = u) → u ∉ st.seen →
      find_booking st.db B = some b →
      ((b.status = BookingStatus.confirmed →
        (cancel_row now b ∈
            (cancel_missing pid now dict st).db.bookings ∧
          (cancel_missing pid now dict st).events.countP
              (fun ev => decide (ev.booking_id = B)) =
            st.events.countP (fun ev => decide (ev.booking_id = B)) + 1 ∧
          (⟨EventType.booking_cancelled, B, pid⟩ : SyncEvent) ∈
            (cancel_missing pid now dict st).events)) ∧
      (¬(b.status = BookingStatus.confirmed) →
        (b ∈ (cancel_missing pid now dict st).db.bookings ∧
          (cancel_missing pid now dict st).events.countP
              (fun ev => decide (ev.booking_id = B)) =
            st.events.countP (fun ev => decide (ev.booking_id = B))))) := by
  intro dict
  induction dict with
  | nil =>
    intro st u B b _ hmem _ _ _ _
    cases hmem
  | cons q dict' ih =>
    intro st u B b hwf hmem hnd hB hseen hfb
    simp only [List.map_cons, List.nodup_cons] at hnd
    rw [cancel_missing_cons]
    have hbm := find_booking_mem hfb
    rcases List.mem_cons.mp hmem with hq | htail
    · -- the head entry is (u, B) itself
      obtain rfl : q = (u, B) := hq.symm
      have htne : ∀ p ∈ dict', p.2 ≠ B := by
        intro p hp hpB
        have hpu := hB p (List.mem_cons_of_mem _ hp) hpB
        refine hnd.1 ?_
        rw [show (u, B).1 = p.1 by rw [hpu]]
        exact List.mem_map_of_mem Prod.fst hp
      constructor
      · intro hconf
        have hstep := cancel_step_cancel pid now (u, B) hseen hfb hconf
        rw [hstep]
        have hmem1 : cancel_row now b ∈
            (update_booking st.db B (cancel_row now)).bookings := by
          have h := mem_update_booking_of_mem B (cancel_row now) hbm.1
          rw [if_pos hbm.2] at h
          exact h
        refine ⟨cancel_missing_untouched _ _ _ hmem1 ?_, ?_, ?_⟩
        · intro p hp
          simp only [cancel_row]
          rw [hbm.2]
          exact htne p hp
        · rw [cancel_missing_count_nomatch _ _ B htne]
          rw [List.countP_append]
          simp
        · obtain ⟨tail, htail⟩ := cancel_missing_events_ext pid now dict'
            ({ st with
                db := update_booking st.db B (cancel_row now)
                events := st.events ++ [⟨EventType.booking_cancelled, B, pid⟩] })
          rw [htail]
          exact List.mem_append_left _
            (List.mem_append_right _ (List.mem_singleton_self _))
      · intro hnconf
        have hstep := cancel_step_skip pid now (u, B) hseen hfb hnconf
        rw [hstep]
        refine ⟨cancel_missing_untouched _ _ _ hbm.1
          (by intro p hp; rw [hbm.2]; exact htne p hp), ?_⟩
        exact cancel_missing_count_nomatch _ _ B htne
    · -- the entry sits in the tail; the head handles some other row
      have hq1ne : q.1 ≠ u := by
        intro h
        exact hnd.1 (h ▸ List.mem_map_of_mem Prod.fst htail)
      have hq2ne : q.2 ≠ B := by
        intro h
        exact hq1ne (hB q (List.mem_cons_self q dict') h)
      have hbne : ¬(b.id = q.2) := by
        rw [hbm.2]
        exact fun h => hq2ne h.symm
      rcases cancel_step_cases pid now st q with ⟨heq, _⟩ | ⟨c, hfc, hcf, hcs, heq⟩
      · rw [heq]
        exact ih st u B b hwf htail hnd.2
          (fun p hp => hB p (List.mem_cons_of_mem q hp)) hseen hfb
      · rw [heq]
        have hwf1 : (update_booking st.db q.2 (cancel_row now)).wf = true :=
          wf_update_booking hwf (fun x _ _ => rfl) (fun x _ _ => rfl)
        have hb1 : b ∈ (update_booking st.db q.2 (cancel_row now)).bookings :=
          mem_update_booking_of_ne hbm.1 hbne
        have hfb1 : find_booking (update_booking st.db q.2 (cancel_row now)) B =
            some b := by
          have h := find_booking_eq hwf1 hb1
          rwa [hbm.2] at h
        have hih := ih ({ st with
            db := update_booking st.db q.2 (cancel_row now)
            events := st.events ++ [⟨EventType.booking_cancelled, q.2, pid⟩] })
          u B b hwf1 htail hnd.2
          (fun p hp => hB p (List.mem_cons_of_mem q hp)) hseen hfb1
        constructor
        · intro hconf
          obtain ⟨h1, h2, h3⟩ := hih.1 hconf
          refine ⟨h1, ?_, h3⟩
          rw [h2]
          dsimp only
          rw [List.countP_append]
          simp [hq2ne]
        · intro hnconf
          obtain ⟨h1, h2⟩ := hih.2 hnconf
          refine ⟨h1, ?_⟩
          rw [h2]
          dsimp only
          rw [List.countP_append]
          simp [hq2ne]

theorem sync_events_seen {pid now : Nat} {dict : List (String × Nat)} :
    ∀ (rest : List FeedEvent) (st st' : SyncState),
      sync_events pid now dict st rest = (st', true) →
      st'.seen = st.seen ++ rest.map FeedEvent.uid := by
  intro rest
  induction rest with
  | nil =>
    intro st st' h
    rw [sync_events_nil] at h
    obtain rfl : st = st' := congrArg Prod.fst h
    simp
  | cons e es ih =>
    intro st st' h
    rw [sync_events_cons] at h
    have hseen := sync_step_seen pid now dict st e
    cases hstep : sync_step pid now dict st e with
    | mk st1 ok =>
      rw [hstep] at h hseen
      cases ok with
      | true =>
        rw [ih st1 st' h, hseen]
        simp
      | false => cases h

/-! ### Assembling one `_sync_property` pass -/

theorem sync_property_cases (pid now : Nat) (db : SyncDB)
    (feed : List FeedEvent) :
    (∃ st, sync_events pid now (build_dict pid db) ⟨db, [], []⟩ feed = (st, true) ∧
      sync_property pid now db feed =
        ⟨(cancel_missing pid now (build_dict pid db) st).db,
          (cancel_missing pid now (build_dict pid db) st).events, true⟩) ∨
    (∃ st, sync_events pid now (build_dict pid db) ⟨db, [], []⟩ feed = (st, false) ∧
      sync_property pid now db feed = ⟨st.db, st.events, false⟩) := by
  cases h : sync_events pid now (build_dict pid db) ⟨db, [], []⟩ feed with
  | mk st ok =>
    cases ok with
    | true =>
      refine Or.inl ⟨st, rfl, ?_⟩
      simp only [sync_property, h]
    | false =>
      refine Or.inr ⟨st, rfl, ?_⟩
      simp only [sync_property, h]

/-- A booking of the feed's scope whose uid the feed does not mention and
whose status is not confirmed triggers no event at all during a pass. -/
theorem sync_property_silent (pid now : Nat) (db : SyncDB)
    (feed : List FeedEvent) (b : Booking) (u : String)
    (hwf : db.wf = true) (hb : b ∈ db.bookings)
    (hscope : ical_scope pid b = true) (huid : b.ical_uid = some u)
    (hne : u ≠ "") (hstat : ¬(b.status = BookingStatus.confirmed))
    (hmiss : u ∉ feed.map FeedEvent.uid) :
    b ∈ (sync_property pid now db feed).db.bookings ∧
      events_for (sync_property pid now db feed) b.id = 0 := by
  have hst0 : stable pid (build_dict pid db) db := stable_init hwf
  have hdictmem : ((u, b.id) : String × Nat) ∈ build_dict pid db :=
    (mem_build_dict hwf).mpr ⟨b, hb, hscope, huid, hne, rfl⟩
  have hbound : b.id < db.next_id := wf_bound hwf b hb
  rcases sync_property_cases pid now db feed with
    ⟨st1, hrun, heq⟩ | ⟨st1, hrun, heq⟩
  · have hb1 : b ∈ st1.db.bookings := by
      have h := sync_events_untouched now feed ⟨db, [], []⟩ b u hst0 hb huid hmiss
      rw [hrun] at h
      exact h
    have hstable1 : stable pid (build_dict pid db) st1.db := by
      have h := (@stable_sync_events pid now (build_dict pid db) feed ⟨db, [], []⟩ hst0).1
      rw [hrun] at h
      exact h
    have hcount1 : st1.events.countP (fun ev => decide (ev.booking_id = b.id)) = 0 := by
      have h := @sync_events_count_key pid now (build_dict pid db) feed ⟨db, [], []⟩ u b.id hst0 hdictmem hmiss hbound
      rw [hrun] at h
      simpa using h
    have hseen1 : st1.seen = feed.map FeedEvent.uid := by
      have h := sync_events_seen feed ⟨db, [], []⟩ st1 hrun
      simpa using h
    have hBkey : ∀ q ∈ build_dict pid db, q.2 = b.id → q.1 = u := by
      intro q hq hq2
      obtain ⟨c, hc, hcs, hcu, hcne, hcid⟩ := (mem_build_dict hwf).mp hq
      obtain rfl : c = b := id_unique (wf_ids hwf) hc hb (by rw [← hcid, hq2])
      rw [huid] at hcu
      exact (Option.some.inj hcu).symm
    have huseen : u ∉ st1.seen := by
      rw [hseen1]
      exact hmiss
    have hfb1 : find_booking st1.db b.id = some b := find_booking_eq hstable1.1 hb1
    have hentry := @cancel_missing_entry pid now (build_dict pid db) st1 u b.id b
      hstable1.1 hdictmem (build_dict_keys_nodup hwf) hBkey huseen hfb1
    obtain ⟨h1, h2⟩ := hentry.2 hstat
    rw [heq]
    refine ⟨h1, ?_⟩
    unfold events_for
    dsimp only
    rw [h2, hcount1]
  · have hb1 : b ∈ st1.db.bookings := by
      have h := sync_events_untouched now feed ⟨db, [], []⟩ b u hst0 hb huid hmiss
      rw [hrun] at h
      exact h
    have hcount1 : st1.events.countP (fun ev => decide (ev.booking_id = b.id)) = 0 := by
      have h := @sync_events_count_key pid now (build_dict pid db) feed ⟨db, [], []⟩ u b.id hst0 hdictmem hmiss hbound
      rw [hrun] at h
      simpa using h
    rw [heq]
    exact ⟨hb1, hcount1⟩

/-- A completed pass leaves the store well formed. -/
theorem sync_property_wf (pid now : Nat) (db : SyncDB) (feed : List FeedEvent)
    (hwf : db.wf = true) (hok : (sync_property pid now db feed).ok = true) :
    (sync_property pid now db feed).db.wf = true := by
  rcases sync_property_cases pid now db feed with
    ⟨st1, hrun, heq⟩ | ⟨st1, hrun, heq⟩
  · have hst0 : stable pid (build_dict pid db) db := stable_init hwf
    have hstable1 : stable pid (build_dict pid db) st1.db := by
      have h := (@stable_sync_events pid now (build_dict pid db) feed ⟨db, [], []⟩ hst0).1
      rw [hrun] at h
      exact h
    have h2 := @stable_cancel_missing pid now (build_dict pid db)
      (build_dict pid db) st1 hstable1
    rw [heq]
    exact h2.1
  · rw [heq] at hok
    exact Bool.noConfusion hok

/-- A confirmed booking of the feed's scope whose uid the completed pass
never observed is cancelled, with exactly one event for its id, that event
being `booking_cancelled`. -/
theorem sync_property_cancels (pid now : Nat) (db : SyncDB)
    (feed : List FeedEvent) (b : Booking) (u : String)
    (hwf : db.wf = true) (hb : b ∈ db.bookings)
    (hscope : ical_scope pid b = true) (huid : b.ical_uid = some u)
    (hne : u ≠ "") (hstat : b.status = BookingStatus.confirmed)
    (hmiss : u ∉ feed.map FeedEvent.uid)
    (hok : (sync_property pid now db feed).ok = true) :
    cancel_row now b ∈ (sync_property pid now db feed).db.bookings ∧
      events_for (sync_property pid now db feed) b.id = 1 ∧
      (⟨EventType.booking_cancelled, b.id, pid⟩ : SyncEvent) ∈
        (sync_property pid now db feed).events := by
  have hst0 : stable pid (build_dict pid db) db := stable_init hwf
  have hdictmem : ((u, b.id) : String × Nat) ∈ build_dict pid db :=
    (mem_build_dict hwf).mpr ⟨b, hb, hscope, huid, hne, rfl⟩
  have hbound : b.id < db.next_id := wf_bound hwf b hb
  rcases sync_property_cases pid now db feed with
    ⟨st1, hrun, heq⟩ | ⟨st1, hrun, heq⟩
  · have hb1 : b ∈ st1.db.bookings := by
      have h := sync_events_untouched now feed ⟨db, [], []⟩ b u hst0 hb huid hmiss
      rw [hrun] at h
      exact h
    have hstable1 : stable pid (build_dict pid db) st1.db := by
      have h := (@stable_sync_events pid now (build_dict pid db) feed ⟨db, [], []⟩ hst0).1
      rw [hrun] at h
      exact h
    have hcount1 : st1.events.countP (fun ev => decide (ev.booking_id = b.id)) = 0 := by
      have h := @sync_events_count_key pid now (build_dict pid db) feed ⟨db, [], []⟩ u b.id hst0 hdictmem hmiss hbound
      rw [hrun] at h
      simpa using h
    have hseen1 : st1.seen = feed.map FeedEvent.uid := by
      have h := sync_events_seen feed ⟨db, [], []⟩ st1 hrun
      simpa using h
    have hBkey : ∀ q ∈ build_dict pid db, q.2 = b.id → q.1 = u := by
      intro q hq hq2
      obtain ⟨c, hc, hcs, hcu, hcne, hcid⟩ := (mem_build_dict hwf).mp hq
      obtain rfl : c = b := id_unique (wf_ids hwf) hc hb (by rw [← hcid, hq2])
      rw [huid] at hcu
      exact (Option.some.inj hcu).symm
    have huseen : u ∉ st1.seen := by
      rw [hseen1]
      exact hmiss
    have hfb1 : find_booking st1.db b.id = some b := find_booking_eq hstable1.1 hb1
    have hentry := @cancel_missing_entry pid now (build_dict pid db) st1 u b.id b
      hstable1.1 hdictmem (build_dict_keys_nodup hwf) hBkey huseen hfb1
    obtain ⟨h1, h2, h3⟩ := hentry.1 hstat
    rw [heq]
    refine ⟨h1, ?_, h3⟩
    unfold events_for
    dsimp only
    rw [h2, hcount1]
  · rw [heq] at hok
    exact Bool.noConfusion hok

/-- Running the event loop over an appended feed, when the first part
succeeds, continues from its final state. -/
theorem sync_events_append_ok {pid now : Nat} {dict : List (String × Nat)} :
    ∀ (l1 l2 : List FeedEvent) (st st1 : SyncState),
      sync_events pid now dict st l1 = (st1, true) →
      sync_events pid now dict st (l1 ++ l2) =
        sync_events pid now dict st1 l2 := by
  intro l1
  induction l1 with
  | nil =>
    intro l2 st st1 h
    rw [sync_events_nil] at h
    obtain rfl : st = st1 := congrArg Prod.fst h
    rfl
  | cons e es ih =>
    intro l2 st st1 h
    rw [sync_events_cons] at h
    rw [List.cons_append, sync_events_cons]
    cases hstep : sync_step pid now dict st e with
    | mk sta ok =>
      rw [hstep] at h
      cases ok with
      | true => exact ih l2 sta st1 h
      | false => exact Bool.noConfusion (congrArg Prod.snd h)

/-- Running the event loop over an appended feed, when the first part
aborts, aborts with the first part's state. -/
theorem sync_events_append_fail {pid now : Nat} {dict : List (String × Nat)} :
    ∀ (l1 l2 : List FeedEvent) (st st1 : SyncState),
      sync_events pid now dict st l1 = (st1, false) →
      sync_events pid now dict st (l1 ++ l2) = (st1, false) := by
  intro l1
  induction l1 with
  | nil =>
    intro l2 st st1 h
    rw [sync_events_nil] at h
    cases h
  | cons e es ih =>
    intro l2 st st1 h
    rw [sync_events_cons] at h
    rw [List.cons_append, sync_events_cons]
    cases hstep : sync_step pid now dict st e with
    | mk sta ok =>
      rw [hstep] at h
      cases ok with
      | true => exact ih l2 sta st1 h
      | false => exact h

/-- Every row surviving the cancellation loop descends from a row of the
incoming state with the same key, uid, property and source. -/
theorem cancel_missing_rows {pid now : Nat} :
    ∀ (dict : List (String × Nat)) (st : SyncState),
      ∀ x ∈ (cancel_missing pid now dict st).db.bookings,
        ∃ y ∈ st.db.bookings, y.id = x.id ∧ x.ical_uid = y.ical_uid ∧
          x.property_id = y.property_id ∧ x.source = y.source := by
  intro dict
  induction dict with
  | nil =>
    intro st x hx
    rw [cancel_missing_nil] at hx
    exact ⟨x, hx, rfl, rfl, rfl, rfl⟩
  | cons q dict' ih =>
    intro st x hx
    rw [cancel_missing_cons] at hx
    rcases cancel_step_cases pid now st q with ⟨heq, _⟩ | ⟨b, _, _, _, heq⟩
    · rw [heq] at hx
      exact ih _ x hx
    · rw [heq] at hx
      obtain ⟨y1, hy1, hid1, huid1, hprop1, hsrc1⟩ := ih _ x hx
      obtain ⟨y, hy, hyy⟩ := mem_update_booking hy1
      by_cases hcase : y.id = q.2
      · rw [hyy, if_pos hcase] at hid1 huid1 hprop1 hsrc1
        exact ⟨y, hy, hid1, huid1, hprop1, hsrc1⟩
      · rw [hyy, if_neg hcase] at hid1 huid1 hprop1 hsrc1
        exact ⟨y, hy, hid1, huid1, hprop1, hsrc1⟩

/-! ### Claim C3 -/

/-- C3: for a stored external-feed booking whose uid the completed cycle did
not observe: if confirmed, it is transitioned to cancelled and exactly one
`booking_cancelled` event is published for it; if not confirmed, it is left
unchanged and no event for it is published; and a second run whose feed still
misses the uid publishes no further event for that booking. -/
theorem C3_missing_uid_cancellation (pid now : Nat) (db : SyncDB)
    (feed : List FeedEvent) (b : Booking) (u : String)
    (hwf : db.wf = true) (hb : b ∈ db.bookings)
    (hscope : ical_scope pid b = true) (huid : b.ical_uid = some u)
    (hne : u ≠ "") (hmiss : u ∉ feed.map FeedEvent.uid)
    (hok : (sync_property pid now db feed).ok = true) :
    (b.status = BookingStatus.confirmed →
      cancel_row now b ∈ (sync_property pid now db feed).db.bookings ∧
        events_for (sync_property pid now db feed) b.id = 1 ∧
        (⟨EventType.booking_cancelled, b.id, pid⟩ : SyncEvent) ∈
          (sync_property pid now db feed).events) ∧
    (¬(b.status = BookingStatus.confirmed) →
      b ∈ (sync_property pid now db feed).db.bookings ∧
        events_for (sync_property pid now db feed) b.id = 0) ∧
    (∀ now2 feed2, u ∉ List.map FeedEvent.uid feed2 →
      events_for
          (sync_property pid now2 (sync_property pid now db feed).db feed2)
          b.id = 0) := by
  have hRwf : (sync_property pid now db feed).db.wf = true :=
    sync_property_wf pid now db feed hwf hok
  refine ⟨fun hstat => sync_property_cancels pid now db feed b u hwf hb hscope
    huid hne hstat hmiss hok,
    fun hstat => sync_property_silent pid now db feed b u hwf hb hscope huid
      hne hstat hmiss, ?_⟩
  intro now2 feed2 hmiss2
  by_cases hstat : b.status = BookingStatus.confirmed
  · obtain ⟨hmem, -, -⟩ := sync_property_cancels pid now db feed b u hwf hb
      hscope huid hne hstat hmiss hok
    have h := (sync_property_silent pid now2 (sync_property pid now db feed).db
      feed2 (cancel_row now b) u hRwf hmem
      (by simpa [cancel_row, ical_scope] using hscope)
      (by simpa [cancel_row] using huid) hne (by simp [cancel_row]) hmiss2).2
    simpa [cancel_row] using h
  · obtain ⟨hmem, -⟩ := sync_property_silent pid now db feed b u hwf hb hscope
      huid hne hstat hmiss
    exact (sync_property_silent pid now2 (sync_property pid now db feed).db
      feed2 b u hRwf hmem hscope huid hne hstat hmiss2).2

/-- Concrete instance for C3: one confirmed feed-sourced row. -/
def c3_booking : Booking :=
  { id := 1, property_id := 7, ical_uid := some "u1", checkin_date := 10,
    checkout_date := 12, summary := some "s",
    status := BookingStatus.confirmed, source := BookingSource.ical,
    updated_at := 0 }

/-- Concrete store for C3. -/
def c3_db : SyncDB := { bookings := [c3_booking], next_id := 2 }

/-- Witness for C3: the concrete store and the empty feed satisfy every
hypothesis. -/
theorem C3_missing_uid_cancellation_witness :
    c3_db.wf = true ∧ (sync_property 7 9 c3_db []).ok = true ∧
    ((c3_booking.status = BookingStatus.confirmed →
      cancel_row 9 c3_booking ∈ (sync_property 7 9 c3_db []).db.bookings ∧
        events_for (sync_property 7 9 c3_db []) c3_booking.id = 1 ∧
        (⟨EventType.booking_cancelled, c3_booking.id, 7⟩ : SyncEvent) ∈
          (sync_property 7 9 c3_db []).events) ∧
    (¬(c3_booking.status = BookingStatus.confirmed) →
      c3_booking ∈ (sync_property 7 9 c3_db []).db.bookings ∧
        events_for (sync_property 7 9 c3_db []) c3_booking.id = 0) ∧
    (∀ now2 feed2, "u1" ∉ List.map FeedEvent.uid feed2 →
      events_for
          (sync_property 7 now2 (sync_property 7 9 c3_db []).db feed2)
          c3_booking.id = 0)) :=
  ⟨by decide, by decide,
    C3_missing_uid_cancellation 7 9 c3_db [] c3_booking "u1" (by decide)
      (by decide) (by decide) (by decide) (by decide) (by decide) (by decide)⟩

/-! ### Claim C2 -/

/-- C2: during a completed pass over a duplicate-free feed, an event whose
uid no stored booking holds creates exactly one new confirmed ical-sourced
booking matching the event and publishes exactly one `booking_new` event for
it, and every row of the resulting store either keeps the primary key of a
stored row or was created from a feed event whose uid was unknown. -/
theorem C2_unknown_uid_creates (pid now : Nat) (db : SyncDB)
    (feed : List FeedEvent) (e : FeedEvent)
    (hwf : db.wf = true) (hnd : (feed.map FeedEvent.uid).Nodup)
    (he : e ∈ feed)
    (hfresh : ∀ b0 ∈ db.bookings, ¬(b0.ical_uid = some e.uid))
    (hok : (sync_property pid now db feed).ok = true) :
    (∃ x ∈ (sync_property pid now db feed).db.bookings,
      db.next_id ≤ x.id ∧ x.ical_uid = some e.uid ∧ x.property_id = pid ∧
        x.source = BookingSource.ical ∧ x.status = BookingStatus.confirmed ∧
        matches_event x e ∧
        events_for (sync_property pid now db feed) x.id = 1 ∧
        (⟨EventType.booking_new, x.id, pid⟩ : SyncEvent) ∈
          (sync_property pid now db feed).events) ∧
    (sync_property pid now db feed).db.bookings.countP
        (fun x => decide (x.ical_uid = some e.uid)) = 1 ∧
    (∀ x ∈ (sync_property pid now db feed).db.bookings,
      (∃ y ∈ db.bookings, y.id = x.id) ∨
        (x.property_id = pid ∧ x.source = BookingSource.ical ∧
          ∃ e2 ∈ feed, x.ical_uid = some e2.uid ∧
            (∀ b0 ∈ db.bookings, ¬(b0.ical_uid = some e2.uid)))) := by
  have hst0 : stable pid (build_dict pid db) db := stable_init hwf
  have hdfe : dict_find (build_dict pid db) e.uid = none :=
    dict_find_build_none hwf (fun b hb _ => hfresh b hb)
  obtain ⟨l1, l2, rfl⟩ := List.append_of_mem he
  have hnd' := hnd
  rw [List.map_append, List.map_cons, List.nodup_append] at hnd'
  have hnm1 : e.uid ∉ l1.map FeedEvent.uid := fun hmem =>
    hnd'.2.2 hmem (List.mem_cons_self _ _)
  have hnm2 : e.uid ∉ l2.map FeedEvent.uid := (List.nodup_cons.mp hnd'.2.1).1
  rcases sync_property_cases pid now db (l1 ++ e :: l2) with
    ⟨stF, hrun, heq⟩ | ⟨stF, hrun, heq⟩
  · cases hrun1 : sync_events pid now (build_dict pid db) ⟨db, [], []⟩ l1 with
    | mk st1 ok1 =>
      cases ok1 with
      | false =>
        exfalso
        rw [sync_events_append_fail l1 (e :: l2) ⟨db, [], []⟩ st1 hrun1] at hrun
        cases hrun
      | true =>
        have hstable1 : stable pid (build_dict pid db) st1.db := by
          have h := (@stable_sync_events pid now (build_dict pid db) l1 ⟨db, [], []⟩ hst0).1
          rw [hrun1] at h
          exact h
        have hmono : db.next_id ≤ st1.db.next_id := by
          have h := (@stable_sync_events pid now (build_dict pid db) l1 ⟨db, [], []⟩ hst0).2
          rw [hrun1] at h
          exact h
        have hbnd : ∀ ev ∈ st1.events, ev.booking_id < st1.db.next_id := by
          have h := @sync_events_ev_bound pid now (build_dict pid db) l1
            ⟨db, [], []⟩ hst0 (fun ev hv => absurd hv (List.not_mem_nil ev))
          rw [hrun1] at h
          exact h
        cases hc : uid_conflict st1.db e.uid with
        | true =>
          exfalso
          have hstepc := @sync_step_conflict pid now (build_dict pid db) st1 e hdfe hc
          rw [sync_events_append_ok l1 (e :: l2) ⟨db, [], []⟩ st1 hrun1,
            sync_events_cons_fail hstepc] at hrun
          cases hrun
        | false =>
          have heqstep := @sync_step_create pid now (build_dict pid db) st1 e hdfe hc
          have hpack : ∃ st2, sync_step pid now (build_dict pid db) st1 e = (st2, true) ∧
              st2.db.bookings = st1.db.bookings ++
                [fresh_booking pid now st1.db.next_id e] ∧
              st2.db.next_id = st1.db.next_id + 1 ∧
              st2.events = st1.events ++
                [⟨EventType.booking_new, st1.db.next_id, pid⟩] :=
            ⟨_, heqstep, rfl, rfl, rfl⟩
          obtain ⟨st2, hstep, hb2, hn2, he2⟩ := hpack
          have hstable2 : stable pid (build_dict pid db) st2.db := by
            have h := (stable_sync_step now e hstable1).1
            rw [hstep] at h
            exact h
          have hrun2 : sync_events pid now (build_dict pid db) st2 l2 = (stF, true) := by
            rw [sync_events_append_ok l1 (e :: l2) ⟨db, [], []⟩ st1 hrun1,
              sync_events_cons_ok hstep] at hrun
            exact hrun
          have hq2 : ∀ q ∈ build_dict pid db, q.2 ≠ st1.db.next_id := by
            intro q hq heqq
            have h1 := build_dict_values_lt hwf hq
            omega
          have hxmem2 : fresh_booking pid now st1.db.next_id e ∈ st2.db.bookings := by
            rw [hb2]
            exact List.mem_append_right _ (List.mem_singleton_self _)
          have hxF : fresh_booking pid now st1.db.next_id e ∈ stF.db.bookings := by
            have h := sync_events_untouched now l2 st2
              (fresh_booking pid now st1.db.next_id e) e.uid hstable2 hxmem2 rfl hnm2
            rw [hrun2] at h
            exact h
          have hcnt1 : st1.events.countP
              (fun ev => decide (ev.booking_id = st1.db.next_id)) = 0 := by
            rw [List.countP_eq_zero]
            intro ev hv
            simp only [decide_eq_true_eq]
            have := hbnd ev hv
            omega
          have hcnt2 : st2.events.countP
              (fun ev => decide (ev.booking_id = st1.db.next_id)) = 1 := by
            rw [he2, List.countP_append, hcnt1]
            simp
          have hlt : st1.db.next_id < st2.db.next_id := by
            rw [hn2]
            exact Nat.lt_succ_self _
          have hcntF : stF.events.countP
              (fun ev => decide (ev.booking_id = st1.db.next_id)) = 1 := by
            have h := @sync_events_count_fresh pid now (build_dict pid db) l2 st2
              st1.db.next_id hstable2 hlt hq2
            rw [hrun2] at h
            rw [h]
            exact hcnt2
          have hevmem : (⟨EventType.booking_new, st1.db.next_id, pid⟩ : SyncEvent) ∈
              (cancel_missing pid now (build_dict pid db) stF).events := by
            obtain ⟨t2, ht2⟩ := cancel_missing_events_ext pid now (build_dict pid db) stF
            rw [ht2]
            apply List.mem_append_left
            obtain ⟨t1, ht1⟩ := @sync_events_events_ext pid now (build_dict pid db) l2 st2
            rw [hrun2] at ht1
            have ht1' : stF.events = st2.events ++ t1 := ht1
            rw [ht1']
            apply List.mem_append_left
            rw [he2]
            exact List.mem_append_right _ (List.mem_singleton_self _)
          have hstableF : stable pid (build_dict pid db) stF.db := by
            have h := (@stable_sync_events pid now (build_dict pid db)
              (l1 ++ e :: l2) ⟨db, [], []⟩ hst0).1
            rw [hrun] at h
            exact h
          have hstableR := @stable_cancel_missing pid now (build_dict pid db)
            (build_dict pid db) stF hstableF
          have hxR : fresh_booking pid now st1.db.next_id e ∈
              (cancel_missing pid now (build_dict pid db) stF).db.bookings :=
            cancel_missing_untouched (build_dict pid db) stF _ hxF
              (fun q hq => hq2 q hq)
          refine ⟨⟨fresh_booking pid now st1.db.next_id e, ?_, hmono, rfl, rfl,
            rfl, rfl, ⟨rfl, rfl, rfl⟩, ?_, ?_⟩, ?_, ?_⟩
          · rw [heq]
            exact hxR
          · rw [heq]
            show (cancel_missing pid now (build_dict pid db) stF).events.countP
                (fun ev => decide (ev.booking_id = st1.db.next_id)) = 1
            rw [@cancel_missing_count_nomatch pid now (build_dict pid db) stF
              st1.db.next_id hq2]
            exact hcntF
          · rw [heq]
            exact hevmem
          · rw [heq]
            exact countP_uid_eq_one hstableR.1 hxR rfl
          · rw [heq]
            intro x2 hx2
            obtain ⟨y1, hy1, hid1, huid1, hprop1, hsrc1⟩ :=
              cancel_missing_rows (build_dict pid db) stF x2 hx2
            by_cases hlt2 : y1.id < db.next_id
            · have h := @sync_events_old_core pid now (build_dict pid db)
                (l1 ++ e :: l2) ⟨db, [], []⟩ hst0
              rw [hrun] at h
              obtain ⟨y, hy, hid2, _, _, _, _⟩ := h y1 hy1 hlt2
              exact Or.inl ⟨y, hy, by rw [hid2, hid1]⟩
            · have h := @sync_events_created pid now (build_dict pid db) db.next_id
                (fun q hq => build_dict_values_lt hwf hq) (l1 ++ e :: l2)
                ⟨db, [], []⟩ hst0 (Nat.le_refl db.next_id)
              rw [hrun] at h
              rcases h y1 hy1 (by omega) with hy1db |
                ⟨hp, hs, hstat3, e2, he2x, hu2, hmat2, hdf2, hnouid⟩
              · exact Or.inl ⟨y1, hy1db, hid1⟩
              · refine Or.inr ⟨?_, ?_, e2, he2x, ?_, hnouid⟩
                · rw [hprop1, hp]
                · rw [hsrc1, hs]
                · rw [huid1, hu2]
  · rw [heq] at hok
    exact Bool.noConfusion hok

/-- Concrete instance for C2: an empty store and one fresh feed event. -/
def c2_db : SyncDB := { bookings := [], next_id := 1 }

/-- The fresh feed event for the C2 witness. -/
def c2_e : FeedEvent := { uid := "u1", checkin := 3, checkout := 5, summary := "s" }

/-- Witness for C2: the empty store and the singleton feed satisfy every
hypothesis. -/
theorem C2_unknown_uid_creates_witness :
    c2_db.wf = true ∧ (sync_property 7 4 c2_db [c2_e]).ok = true ∧
    ((∃ x ∈ (sync_property 7 4 c2_db [c2_e]).db.bookings,
      c2_db.next_id ≤ x.id ∧ x.ical_uid = some c2_e.uid ∧ x.property_id = 7 ∧
        x.source = BookingSource.ical ∧ x.status = BookingStatus.confirmed ∧
        matches_event x c2_e ∧
        events_for (sync_property 7 4 c2_db [c2_e]) x.id = 1 ∧
        (⟨EventType.booking_new, x.id, 7⟩ : SyncEvent) ∈
          (sync_property 7 4 c2_db [c2_e]).events) ∧
    (sync_property 7 4 c2_db [c2_e]).db.bookings.countP
        (fun x => decide (x.ical_uid = some c2_e.uid)) = 1 ∧
    (∀ x ∈ (sync_property 7 4 c2_db [c2_e]).db.bookings,
      (∃ y ∈ c2_db.bookings, y.id = x.id) ∨
        (x.property_id = 7 ∧ x.source = BookingSource.ical ∧
          ∃ e2 ∈ [c2_e], x.ical_uid = some e2.uid ∧
            (∀ b0 ∈ c2_db.bookings, ¬(b0.ical_uid = some e2.uid))))) :=
  ⟨by decide, by decide,
    C2_unknown_uid_creates 7 4 c2_db [c2_e] c2_e (by decide) (by decide)
      (by decide) (by decide) (by decide)⟩

/-! ### Claim C1 -/

/-- A row all of whose dictionary entries carry already-seen keys survives
the cancellation loop verbatim. -/
theorem cancel_missing_seen_untouched {pid now : Nat} :
    ∀ (dict : List (String × Nat)) (st : SyncState) (b : Booking),
      b ∈ st.db.bookings → (∀ q ∈ dict, q.2 = b.id → q.1 ∈ st.seen) →
      b ∈ (cancel_missing pid now dict st).db.bookings := by
  intro dict
  induction dict with
  | nil =>
    intro st b hb _
    rw [cancel_missing_nil]
    exact hb
  | cons q dict' ih =>
    intro st b hb hq
    rw [cancel_missing_cons]
    by_cases hseen : q.1 ∈ st.seen
    · rw [cancel_step_seen_mem pid now q hseen]
      exact ih st b hb (fun p hp hpb => hq p (List.mem_cons_of_mem q hp) hpb)
    · have hne : ¬(b.id = q.2) := fun h =>
        hseen (hq q (List.mem_cons_self q dict') h.symm)
      rcases cancel_step_cases pid now st q with ⟨heq, _⟩ | ⟨c, _, _, _, heq⟩
      · rw [heq]
        exact ih st b hb (fun p hp hpb => hq p (List.mem_cons_of_mem q hp) hpb)
      · rw [heq]
        exact ih _ b (mem_update_booking_of_ne hb hne)
          (fun p hp hpb => hq p (List.mem_cons_of_mem q hp) hpb)

/-- A pass in which every event already matches its stored row and every
dictionary entry is seen or non-confirmed leaves state and events alone. -/
theorem sync_property_noop_of (pid now : Nat) (db : SyncDB)
    (feed : List FeedEvent)
    (hall : ∀ e ∈ feed, ∃ bid b, dict_find (build_dict pid db) e.uid = some bid ∧
      find_booking db bid = some b ∧ (update_if_changed b e now).2 = false)
    (hprem : ∀ q ∈ build_dict pid db, q.1 ∈ feed.map FeedEvent.uid ∨
      (∀ b, find_booking db q.2 = some b →
        ¬(b.status = BookingStatus.confirmed))) :
    sync_property pid now db feed = ⟨db, [], true⟩ := by
  have hnoop := @sync_events_noop pid now (build_dict pid db) feed
    ⟨db, [], []⟩ (fun e he => hall e he)
  have hcm : cancel_missing pid now (build_dict pid db)
      ({ (⟨db, [], []⟩ : SyncState) with
        seen := (⟨db, [], []⟩ : SyncState).seen ++ feed.map FeedEvent.uid }) =
      { (⟨db, [], []⟩ : SyncState) with
        seen := (⟨db, [], []⟩ : SyncState).seen ++ feed.map FeedEvent.uid } := by
    apply cancel_missing_noop
    intro q hq
    rcases hprem q hq with h | h
    · left
      simpa using h
    · right
      intro b hb
      exact h b hb
  simp only [sync_property]
  rw [hnoop]
  show (⟨(cancel_missing pid now (build_dict pid db)
      ({ (⟨db, [], []⟩ : SyncState) with
        seen := (⟨db, [], []⟩ : SyncState).seen ++ feed.map FeedEvent.uid })).db,
    (cancel_missing pid now (build_dict pid db)
      ({ (⟨db, [], []⟩ : SyncState) with
        seen := (⟨db, [], []⟩ : SyncState).seen ++ feed.map FeedEvent.uid })).events,
    true⟩ : SyncResult) = ⟨db, [], true⟩
  rw [hcm]

/-- C1 (amended): when the feed's uids are pairwise distinct and non-empty
and the first pass completes, an immediate second pass over the identical
event set changes nothing: same store, no events, and it completes. -/
theorem C1_second_run_noop (pid now now2 : Nat) (db : SyncDB)
    (feed : List FeedEvent)
    (hwf : db.wf = true) (hnd : (feed.map FeedEvent.uid).Nodup)
    (hfne : ∀ e ∈ feed, e.uid ≠ "")
    (hok : (sync_property pid now db feed).ok = true) :
    sync_property pid now2 (sync_property pid now db feed).db feed =
      ⟨(sync_property pid now db feed).db, [], true⟩ := by
  have hst0 : stable pid (build_dict pid db) db := stable_init hwf
  have hRwf : (sync_property pid now db feed).db.wf = true :=
    sync_property_wf pid now db feed hwf hok
  rcases sync_property_cases pid now db feed with
    ⟨stF, hrun, heq⟩ | ⟨stF, hrun, heq⟩
  · have hstableF : stable pid (build_dict pid db) stF.db := by
      have h := (@stable_sync_events pid now (build_dict pid db) feed ⟨db, [], []⟩ hst0).1
      rw [hrun] at h
      exact h
    have hseenF : stF.seen = feed.map FeedEvent.uid := by
      have h := sync_events_seen feed ⟨db, [], []⟩ stF hrun
      simpa using h
    have howners := @sync_events_owners pid now (build_dict pid db) feed
      ⟨db, [], []⟩ hst0 hnd (by rw [hrun])
    have hall : ∀ e ∈ feed, ∃ b ∈ (sync_property pid now db feed).db.bookings,
        ical_scope pid b = true ∧ b.ical_uid = some e.uid ∧ matches_event b e := by
      intro e he
      obtain ⟨b, hbF, hbscope, hbuid, hbmat⟩ := howners e he
      rw [hrun] at hbF
      have hkeyseen : ∀ q ∈ build_dict pid db, q.2 = b.id → q.1 ∈ stF.seen := by
        intro q hq hqb
        obtain ⟨hqne, c, hcF, hcid, hcuid, hcscope⟩ := hstableF.2 q hq
        obtain rfl : c = b := id_unique (wf_ids hstableF.1) hcF hbF (by rw [hcid, hqb])
        rw [hbuid] at hcuid
        have hq1 : q.1 = e.uid := (Option.some.inj hcuid).symm
        rw [hq1, hseenF]
        exact List.mem_map_of_mem FeedEvent.uid he
      have hbR1 : b ∈ (cancel_missing pid now (build_dict pid db) stF).db.bookings :=
        cancel_missing_seen_untouched (build_dict pid db) stF b hbF hkeyseen
      rw [heq]
      exact ⟨b, hbR1, hbscope, hbuid, hbmat⟩
    have hall2 : ∀ e ∈ feed, ∃ bid b2,
        dict_find (build_dict pid (sync_property pid now db feed).db) e.uid =
          some bid ∧
        find_booking (sync_property pid now db feed).db bid = some b2 ∧
        (update_if_changed b2 e now2).2 = false := by
      intro e he
      obtain ⟨b, hbR, hbscope, hbuid, hbmat⟩ := hall e he
      exact ⟨b.id, b, dict_find_build hRwf hbR hbscope hbuid (hfne e he),
        find_booking_eq hRwf hbR,
        ((update_if_changed_spec b e now2).2.2.2.2.2.2.1).mpr hbmat⟩
    have hprem : ∀ q ∈ build_dict pid (sync_property pid now db feed).db,
        q.1 ∈ feed.map FeedEvent.uid ∨
        (∀ b2, find_booking (sync_property pid now db feed).db q.2 = some b2 →
          ¬(b2.status = BookingStatus.confirmed)) := by
      intro q hq
      obtain ⟨c, hc, hcs, hcu, hcne, hcid⟩ := (mem_build_dict hRwf).mp hq
      by_cases hmemf : q.1 ∈ feed.map FeedEvent.uid
      · exact Or.inl hmemf
      · refine Or.inr ?_
        intro b2 hb2
        have hfc : find_booking (sync_property pid now db feed).db c.id = some c :=
          find_booking_eq hRwf hc
        rw [← hcid] at hfc
        rw [hfc] at hb2
        have hbc : b2 = c := (Option.some.inj hb2).symm
        rw [hbc]
        have hcR := hc
        rw [heq] at hcR
        obtain ⟨c0, hc0F, hc0id, hc0uid, hc0prop, hc0src⟩ :=
          cancel_missing_rows (build_dict pid db) stF c hcR
        have hc0lt : c0.id < db.next_id := by
          by_contra hge
          have h := @sync_events_created pid now (build_dict pid db) db.next_id
            (fun p hp => build_dict_values_lt hwf hp) feed ⟨db, [], []⟩ hst0
            (Nat.le_refl db.next_id)
          rw [hrun] at h
          rcases h c0 hc0F (by omega) with hc0db |
            ⟨_, _, _, e2, he2, hu2, _, _, _⟩
          · exact hge (wf_bound hwf c0 hc0db)
          · rw [hc0uid, hu2] at hcu
            have hq1 : q.1 = e2.uid := Option.some.inj hcu.symm
            exact hmemf (by rw [hq1]; exact List.mem_map_of_mem FeedEvent.uid he2)
        have hold := @sync_events_old_core pid now (build_dict pid db) feed
          ⟨db, [], []⟩ hst0
        rw [hrun] at hold
        obtain ⟨y, hy, hyid, hyuid, hyprop, hysrc, hystat⟩ := hold c0 hc0F hc0lt
        have hyuid2 : y.ical_uid = some q.1 := by
          rw [← hyuid, ← hc0uid]
          exact hcu
        have hyscope : ical_scope pid y = true := by
          unfold ical_scope at hcs ⊢
          rw [hc0prop, hyprop, hc0src, hysrc] at hcs
          exact hcs
        by_cases hystatc : y.status = BookingStatus.confirmed
        · obtain ⟨hcrmem, -, -⟩ := sync_property_cancels pid now db feed y q.1
            hwf hy hyscope hyuid2 hcne hystatc hmemf hok
          have hceq : c = cancel_row now y :=
            uid_unique (wf_uids hRwf) hc hcrmem hcu
              (hyuid2 : (cancel_row now y).ical_uid = some q.1)
          rw [hceq]
          simp [cancel_row]
        · obtain ⟨hymem, -⟩ := sync_property_silent pid now db feed y q.1
            hwf hy hyscope hyuid2 hcne hystatc hmemf
          have hceq : c = y := uid_unique (wf_uids hRwf) hc hymem hcu hyuid2
          rw [hceq]
          exact hystatc
    exact sync_property_noop_of pid now2 (sync_property pid now db feed).db feed
      hall2 hprem
  · rw [heq] at hok
    exact Bool.noConfusion hok

/-- The stored row of the C1 counterexample. -/
def c1_booking : Booking :=
  { id := 1, property_id := 1, ical_uid := some "u", checkin_date := 1,
    checkout_date := 2, summary := some "s",
    status := BookingStatus.confirmed, source := BookingSource.ical,
    updated_at := 0 }

/-- Concrete store for the C1 counterexample: one confirmed feed row. -/
def c1_db : SyncDB := { bookings := [c1_booking], next_id := 2 }

/-- A feed mentioning the same uid twice with different dates. -/
def c1_feed : List FeedEvent :=
  [⟨"u", 1, 2, "s"⟩, ⟨"u", 3, 4, "s"⟩]

/-- Counterexample to C1 as stated: both passes complete, yet the second
pass over the identical event set publishes two `booking_modified` events
instead of zero, because the duplicated uid makes the row flip between the
two date ranges on every run. -/
theorem C1_idempotence_counterexample :
    c1_db.wf = true ∧
    (sync_property 1 10 c1_db c1_feed).ok = true ∧
    (sync_property 1 11 (sync_property 1 10 c1_db c1_feed).db c1_feed).ok = true ∧
    (sync_property 1 11 (sync_property 1 10 c1_db c1_feed).db c1_feed).events.length = 2 := by
  decide

/-- The stored row of the C1 witness. -/
def c1w_booking : Booking :=
  { id := 1, property_id := 1, ical_uid := some "w", checkin_date := 10,
    checkout_date := 12, summary := some "s",
    status := BookingStatus.confirmed, source := BookingSource.ical,
    updated_at := 0 }

/-- Concrete store for the C1 witness: one row already matching the feed. -/
def c1w_db : SyncDB := { bookings := [c1w_booking], next_id := 2 }

/-- The feed for the C1 witness. -/
def c1w_feed : List FeedEvent := [⟨"w", 10, 12, "s"⟩]

/-- Witness for the amended C1 at a concrete store and feed. -/
theorem C1_second_run_noop_witness :
    c1w_db.wf = true ∧ (sync_property 1 5 c1w_db c1w_feed).ok = true ∧
    sync_property 1 6 (sync_property 1 5 c1w_db c1w_feed).db c1w_feed =
      ⟨(sync_property 1 5 c1w_db c1w_feed).db, [], true⟩ :=
  ⟨by decide, by decide,
    C1_second_run_noop 1 5 6 c1w_db c1w_feed (by decide) (by decide)
      (by decide) (by decide)⟩

/-! ### Claim C5 -/

/-- Exhaustive case split for `queue_message`: either nothing is written
(and, when booking and property resolve, the returned row is the dedup
lookup), or no active row existed and exactly one queued row is inserted
with one `message_queued` event. -/
theorem queue_message_cases (db : CommsDB)
    (render : String → Booking → Nat → Option String)
    (now booking_id : Nat) (template_name channel : String)
    (scheduled_at : Option Nat) :
    (∃ mo, queue_message db render now booking_id template_name channel
        scheduled_at = ⟨db, mo, []⟩ ∧
      (∀ b, db.bookings.find? (fun x => decide (x.id = booking_id)) = some b →
        b.property_id ∈ db.properties →
        mo = db.messages.find? (dedup_match booking_id template_name))) ∨
    (db.messages.find? (dedup_match booking_id template_name) = none ∧
      ∃ msg : MessageLog, msg.booking_id = booking_id ∧
        msg.template_name = template_name ∧
        msg.status = MessageStatus.queued ∧
        queue_message db render now booking_id template_name channel
            scheduled_at =
          ⟨{ db with
               messages := db.messages ++ [msg]
               next_msg_id := db.next_msg_id + 1 }, some msg,
            [⟨EventType.message_queued, msg.id, template_name⟩]⟩) := by
  cases hfb : db.bookings.find? (fun x => decide (x.id = booking_id)) with
  | none =>
    refine Or.inl ⟨none, ?_, ?_⟩
    · simp [queue_message, hfb]
    · intro b hb hp
      cases hb
  | some booking =>
    by_cases hprop : booking.property_id ∈ db.properties
    · cases hfm : db.messages.find? (dedup_match booking_id template_name) with
      | some existing =>
        refine Or.inl ⟨some existing, ?_, ?_⟩
        · simp [queue_message, hfb, hfm, hprop]
        · intro b hb hp
          rfl
      | none =>
        cases hr : render template_name booking booking.property_id with
        | none =>
          refine Or.inl ⟨none, ?_, ?_⟩
          · simp [queue_message, hfb, hfm, hprop, hr]
          · intro b hb hp
            rfl
        | some body =>
          refine Or.inr ⟨rfl, ?_⟩
          refine ⟨{ id := db.next_msg_id
                    booking_id := booking_id
                    template_name := template_name
                    channel := channel
                    status := MessageStatus.queued
                    scheduled_at := scheduled_at.getD now
                    body := body },
            rfl, rfl, rfl, ?_⟩
          simp [queue_message, hfb, hfm, hprop, hr]
    · refine Or.inl ⟨none, ?_, ?_⟩
      · simp [queue_message, hfb, hprop]
      · intro b hb hp
        have hbb := Option.some.inj hb
        rw [← hbb] at hp
        exact absurd hp hprop

/-- C5: at most one non-failed `message_log` row per
`(booking_id, template_name)` is preserved by `queue_message`; with an
active row present nothing is written, no event is published, and the
existing row is returned; a new row is only ever written when no active
row exists. -/
theorem C5_message_dedup (db : CommsDB)
    (render : String → Booking → Nat → Option String)
    (now booking_id : Nat) (template_name channel : String)
    (scheduled_at : Option Nat) :
    (∀ m, db.messages.find? (dedup_match booking_id template_name) = some m →
      (queue_message db render now booking_id template_name channel
          scheduled_at).db = db ∧
      (queue_message db render now booking_id template_name channel
          scheduled_at).events = [] ∧
      (∀ b, db.bookings.find? (fun x => decide (x.id = booking_id)) = some b →
        b.property_id ∈ db.properties →
        (queue_message db render now booking_id template_name channel
            scheduled_at).msg = some m)) ∧
    (∀ b2 t2, active_count db b2 t2 ≤ 1 →
      active_count (queue_message db render now booking_id template_name
        channel scheduled_at).db b2 t2 ≤ 1) ∧
    ((queue_message db render now booking_id template_name channel
        scheduled_at).db.messages ≠ db.messages →
      active_count db booking_id template_name = 0) := by
  rcases queue_message_cases db render now booking_id template_name channel
      scheduled_at with ⟨mo, heq, hmo⟩ | ⟨hnone, msg, hmb, hmt, hms, heq⟩
  · refine ⟨?_, ?_, ?_⟩
    · intro m hm
      rw [heq]
      refine ⟨rfl, rfl, ?_⟩
      intro b hb hp
      show mo = some m
      rw [hmo b hb hp]
      exact hm
    · intro b2 t2 hle
      rw [heq]
      exact hle
    · intro hne
      rw [heq] at hne
      exact absurd rfl hne
  · have hcnt0 : db.messages.countP (dedup_match booking_id template_name) = 0 := by
      rw [List.countP_eq_zero]
      intro a ha
      have h := List.find?_eq_none.mp hnone a ha
      simpa using h
    refine ⟨?_, ?_, ?_⟩
    · intro m hm
      rw [hnone] at hm
      cases hm
    · intro b2 t2 hle
      rw [heq]
      show ({ db with
                messages := db.messages ++ [msg]
                next_msg_id := db.next_msg_id + 1 } : CommsDB).messages.countP
          (dedup_match b2 t2) ≤ 1
      dsimp only
      rw [List.countP_append]
      by_cases hmatch : dedup_match b2 t2 msg = true
      · have hmm := hmatch
        unfold dedup_match at hmm
        simp only [Bool.and_eq_true, decide_eq_true_eq] at hmm
        have hbeq : b2 = booking_id := by
          rw [← hmm.1.1]
          exact hmb
        have hteq : t2 = template_name := by
          rw [← hmm.1.2]
          exact hmt
        subst hbeq
        subst hteq
        rw [hcnt0]
        simp [List.countP_cons, hmatch]
      · have h0 : List.countP (dedup_match b2 t2) [msg] = 0 := by
          simp [List.countP_cons, hmatch]
        rw [h0]
        unfold active_count at hle
        omega
    · intro hne2
      exact hcnt0

/-- The stored booking for the C5 witness. -/
def c5_booking : Booking :=
  { id := 1, property_id := 3, ical_uid := some "u5", checkin_date := 1,
    checkout_date := 2, summary := none,
    status := BookingStatus.confirmed, source := BookingSource.ical,
    updated_at := 0 }

/-- The already-queued row for the C5 witness. -/
def c5_msg : MessageLog :=
  { id := 4, booking_id := 1, template_name := "welcome", channel := "email",
    status := MessageStatus.queued, scheduled_at := 0, body := "hi" }

/-- Concrete store for the C5 witness. -/
def c5_db : CommsDB :=
  { bookings := [c5_booking], properties := [3], messages := [c5_msg],
    next_msg_id := 5 }

/-- The render collaborator for the C5 witness. -/
def c5_render : String → Booking → Nat → Option String :=
  fun _ _ _ => some "body"

/-- Witness for C5: queueing over an existing active row returns it
unchanged with no event. -/
theorem C5_message_dedup_witness :
    c5_db.messages.find? (dedup_match 1 "welcome") = some c5_msg ∧
    (queue_message c5_db c5_render 0 1 "welcome" "email" none).db = c5_db ∧
    (queue_message c5_db c5_render 0 1 "welcome" "email" none).events = [] ∧
    (queue_message c5_db c5_render 0 1 "welcome" "email" none).msg = some c5_msg := by
  have h := C5_message_dedup c5_db c5_render 0 1 "welcome" "email" none
  refine ⟨by decide, (h.1 c5_msg (by decide)).1, (h.1 c5_msg (by decide)).2.1,
    (h.1 c5_msg (by decide)).2.2 c5_booking (by decide) (by decide)⟩

/-! ### Claim C6 -/

/-- Exhaustive case split for `create_cleaning_task`: either nothing is
written (and, when the booking resolves, the returned task is the dedup
lookup), or no non-cancelled task existed and exactly one pending task is
inserted with one `cleaning_task_created` event. -/
theorem create_cleaning_task_cases (db : OpsDB) (booking_id property_id : Nat) :
    (∃ topt, create_cleaning_task db booking_id property_id = ⟨db, topt, []⟩ ∧
      (∀ b, db.bookings.find? (fun x => decide (x.id = booking_id)) = some b →
        topt = db.tasks.find? (fun t =>
          decide (t.booking_id = some booking_id) &&
          decide (t.status ≠ TaskStatus.cancelled)))) ∨
    (db.tasks.find? (fun t => decide (t.booking_id = some booking_id) &&
        decide (t.status ≠ TaskStatus.cancelled)) = none ∧
      ∃ task : CleaningTask, task.booking_id = some booking_id ∧
        task.status = TaskStatus.pending ∧
        create_cleaning_task db booking_id property_id =
          ⟨{ db with
               tasks := db.tasks ++ [task]
               next_task_id := db.next_task_id + 1 }, some task,
            [⟨EventType.cleaning_task_created, task.id, property_id⟩]⟩) := by
  cases hfb : db.bookings.find? (fun x => decide (x.id = booking_id)) with
  | none =>
    refine Or.inl ⟨none, ?_, ?_⟩
    · simp [create_cleaning_task, hfb]
    · intro b hb
      cases hb
  | some booking =>
    cases hfm : db.tasks.find? (fun t =>
        decide (t.booking_id = some booking_id) &&
        decide (t.status ≠ TaskStatus.cancelled)) with
    | some existing =>
      refine Or.inl ⟨some existing, ?_, ?_⟩
      · simp only [create_cleaning_task, hfb, hfm]
      · intro b hb
        rfl
    | none =>
      refine Or.inr ⟨rfl, ?_⟩
      refine ⟨{ id := db.next_task_id
                property_id := property_id
                booking_id := some booking_id
                scheduled_date := booking.checkout_date
                status := TaskStatus.pending
                is_turnover := check_same_day_turnover db property_id
                  booking.checkout_date
                priority := if check_same_day_turnover db property_id
                  booking.checkout_date then "high" else "normal" },
        rfl, rfl, ?_⟩
      simp only [create_cleaning_task, hfb, hfm]

/-- C6: at most one non-cancelled cleaning task per booking is preserved
by `create_cleaning_task`; with one already present nothing is written, no
event is published, and the existing task is returned; a new task is only
ever written when none exists. -/
theorem C6_cleaning_task_dedup (db : OpsDB) (booking_id property_id : Nat) :
    (∀ t0, db.tasks.find? (fun t => decide (t.booking_id = some booking_id) &&
        decide (t.status ≠ TaskStatus.cancelled)) = some t0 →
      (create_cleaning_task db booking_id property_id).db = db ∧
      (create_cleaning_task db booking_id property_id).events = [] ∧
      (∀ b, db.bookings.find? (fun x => decide (x.id = booking_id)) = some b →
        (create_cleaning_task db booking_id property_id).task = some t0)) ∧
    (∀ b2, active_task_count db b2 ≤ 1 →
      active_task_count (create_cleaning_task db booking_id property_id).db b2 ≤ 1) ∧
    ((create_cleaning_task db booking_id property_id).db.tasks ≠ db.tasks →
      active_task_count db booking_id = 0) := by
  rcases create_cleaning_task_cases db booking_id property_id with
    ⟨topt, heq, hto⟩ | ⟨hnone, task, htb, hts, heq⟩
  · refine ⟨?_, ?_, ?_⟩
    · intro t0 hm
      rw [heq]
      refine ⟨rfl, rfl, ?_⟩
      intro b hb
      show topt = some t0
      rw [hto b hb]
      exact hm
    · intro b2 hle
      rw [heq]
      exact hle
    · intro hne
      rw [heq] at hne
      exact absurd rfl hne
  · have hcnt0 : db.tasks.countP (fun t =>
        decide (t.booking_id = some booking_id) &&
        decide (t.status ≠ TaskStatus.cancelled)) = 0 := by
      rw [List.countP_eq_zero]
      intro a ha
      have h := List.find?_eq_none.mp hnone a ha
      simpa using h
    refine ⟨?_, ?_, ?_⟩
    · intro t0 hm
      rw [hnone] at hm
      cases hm
    · intro b2 hle
      rw [heq]
      show ({ db with
                tasks := db.tasks ++ [task]
                next_task_id := db.next_task_id + 1 } : OpsDB).tasks.countP
          (fun t => decide (t.booking_id = some b2) &&
            decide (t.status ≠ TaskStatus.cancelled)) ≤ 1
      dsimp only
      rw [List.countP_append]
      by_cases hmatch : (decide (task.booking_id = some b2) &&
          decide (task.status ≠ TaskStatus.cancelled)) = true
      · have hmm := hmatch
        simp only [Bool.and_eq_true, decide_eq_true_eq] at hmm
        have hbeq : b2 = booking_id := by
          have h := hmm.1
          rw [htb] at h
          exact (Option.some.inj h).symm
        subst hbeq
        rw [hcnt0, List.countP_cons_of_pos (fun t : CleaningTask =>
          decide (t.booking_id = some b2) &&
          decide (t.status ≠ TaskStatus.cancelled)) _ (by exact hmatch)]
        simp
      · have h0 : List.countP (fun t => decide (t.booking_id = some b2) &&
            decide (t.status ≠ TaskStatus.cancelled)) [task] = 0 := by
          rw [List.countP_cons_of_neg (fun t : CleaningTask =>
            decide (t.booking_id = some b2) &&
            decide (t.status ≠ TaskStatus.cancelled)) _ (by exact hmatch)]
          rfl
        rw [h0]
        unfold active_task_count at hle
        omega
    · intro hne2
      exact hcnt0

/-- The stored booking for the C6 witness. -/
def c6_booking : Booking :=
  { id := 2, property_id := 3, ical_uid := some "u6", checkin_date := 4,
    checkout_date := 6, summary := none,
    status := BookingStatus.confirmed, source := BookingSource.ical,
    updated_at := 0 }

/-- The already-present pending task for the C6 witness. -/
def c6_task : CleaningTask :=
  { id := 9, property_id := 3, booking_id := some 2, scheduled_date := 6,
    status := TaskStatus.pending, is_turnover := false, priority := "normal" }

/-- Concrete store for the C6 witness. -/
def c6_db : OpsDB :=
  { bookings := [c6_booking], tasks := [c6_task], next_task_id := 10 }

/-- Witness for C6: creating over an existing non-cancelled task returns
it unchanged with no event. -/
theorem C6_cleaning_task_dedup_witness :
    c6_db.tasks.find? (fun t => decide (t.booking_id = some 2) &&
      decide (t.status ≠ TaskStatus.cancelled)) = some c6_task ∧
    (create_cleaning_task c6_db 2 3).db = c6_db ∧
    (create_cleaning_task c6_db 2 3).events = [] ∧
    (create_cleaning_task c6_db 2 3).task = some c6_task := by
  have h := C6_cleaning_task_dedup c6_db 2 3
  refine ⟨by decide, (h.1 c6_task (by decide)).1, (h.1 c6_task (by decide)).2.1,
    (h.1 c6_task (by decide)).2.2 c6_booking (by decide)⟩

/-! ### Claim C7 -/

/-- C7 (amended): the created cleaning task is scheduled on the booking's
checkout date, `is_turnover` is true iff SOME confirmed booking on the
property — possibly the serviced booking itself — checks in on that date,
and priority is high exactly when `is_turnover` holds. -/
theorem C7_turnover_detection (db : OpsDB) (booking_id property_id : Nat)
    (b : Booking)
    (hfb : db.bookings.find? (fun x => decide (x.id = booking_id)) = some b)
    (hnone : db.tasks.find? (fun t => decide (t.booking_id = some booking_id) &&
      decide (t.status ≠ TaskStatus.cancelled)) = none) :
    ∃ t, (create_cleaning_task db booking_id property_id).task = some t ∧
      t.scheduled_date = b.checkout_date ∧
      (t.is_turnover = true ↔ ∃ c ∈ db.bookings, c.property_id = property_id ∧
        c.checkin_date = b.checkout_date ∧ c.status = BookingStatus.confirmed) ∧
      t.priority = (if t.is_turnover then "high" else "normal") := by
  have heq : (create_cleaning_task db booking_id property_id).task = some
      ({ id := db.next_task_id
         property_id := property_id
         booking_id := some booking_id
         scheduled_date := b.checkout_date
         status := TaskStatus.pending
         is_turnover := check_same_day_turnover db property_id b.checkout_date
         priority := if check_same_day_turnover db property_id b.checkout_date
           then "high" else "normal" } : CleaningTask) := by
    simp only [create_cleaning_task, hfb, hnone]
  refine ⟨_, heq, rfl, ?_, rfl⟩
  show check_same_day_turnover db property_id b.checkout_date = true ↔
    ∃ c ∈ db.bookings, c.property_id = property_id ∧
      c.checkin_date = b.checkout_date ∧ c.status = BookingStatus.confirmed
  unfold check_same_day_turnover
  rw [List.any_eq_true]
  constructor
  · rintro ⟨c, hc, hcc⟩
    simp only [Bool.and_eq_true, decide_eq_true_eq] at hcc
    exact ⟨c, hc, hcc.1.1, hcc.1.2, hcc.2⟩
  · rintro ⟨c, hc, h1, h2, h3⟩
    exact ⟨c, hc, by simp [h1, h2, h3]⟩

/-- The degenerate stored booking of the C7 counterexample: it checks in
on its own checkout date. -/
def c7_booking : Booking :=
  { id := 1, property_id := 1, ical_uid := some "u7", checkin_date := 5,
    checkout_date := 5, summary := none,
    status := BookingStatus.confirmed, source := BookingSource.ical,
    updated_at := 0 }

/-- Concrete store for the C7 counterexample. -/
def c7_db : OpsDB := { bookings := [c7_booking], tasks := [], next_task_id := 1 }

/-- The task the C7 counterexample run creates. -/
def c7_task : CleaningTask :=
  { id := 1, property_id := 1, booking_id := some 1, scheduled_date := 5,
    status := TaskStatus.pending, is_turnover := true, priority := "high" }

/-- Counterexample to C7 as stated: the store holds a single booking, so no
OTHER booking checks in on the checkout date, yet the created task has
`is_turnover = true` and priority high, because the turnover query does not
exclude the serviced booking itself. -/
theorem C7_turnover_counterexample :
    (∀ b2 ∈ c7_db.bookings, b2.id = 1) ∧
    (create_cleaning_task c7_db 1 1).task = some c7_task ∧
    c7_task.is_turnover = true ∧ c7_task.priority = "high" := by
  decide

/-- First stored booking for the C7 witness. -/
def c7w_b1 : Booking :=
  { id := 1, property_id := 2, ical_uid := some "a", checkin_date := 3,
    checkout_date := 5, summary := none,
    status := BookingStatus.confirmed, source := BookingSource.ical,
    updated_at := 0 }

/-- Adjacent stored booking for the C7 witness: checks in on the first
one's checkout day. -/
def c7w_b2 : Booking :=
  { id := 2, property_id := 2, ical_uid := some "b", checkin_date := 5,
    checkout_date := 8, summary := none,
    status := BookingStatus.confirmed, source := BookingSource.ical,
    updated_at := 0 }

/-- Concrete store for the C7 witness. -/
def c7w_db : OpsDB :=
  { bookings := [c7w_b1, c7w_b2], tasks := [], next_task_id := 1 }

/-- Witness for the amended C7 at a genuine turnover pair. -/
theorem C7_turnover_detection_witness :
    c7w_db.bookings.find? (fun x => decide (x.id = 1)) = some c7w_b1 ∧
    (∃ t, (create_cleaning_task c7w_db 1 2).task = some t ∧
      t.scheduled_date = c7w_b1.checkout_date ∧
      (t.is_turnover = true ↔ ∃ c ∈ c7w_db.bookings, c.property_id = 2 ∧
        c.checkin_date = c7w_b1.checkout_date ∧
        c.status = BookingStatus.confirmed) ∧
      t.priority = (if t.is_turnover then "high" else "normal")) :=
  ⟨by decide, C7_turnover_detection c7w_db 1 2 c7w_b1 (by decide) (by decide)⟩

/-! ### Claim C8 -/

/-- The per-row update of `_on_booking_cancelled`. -/
def cancel_mark (booking_id : Nat) (t : CleaningTask) : CleaningTask :=
  if t.booking_id = some booking_id ∧
      (t.status = TaskStatus.pending ∨ t.status = TaskStatus.notified) then
    { t with status := TaskStatus.cancelled }
  else t

theorem cancel_tasks_eq (db : OpsDB) (booking_id : Nat) :
    cancel_tasks_for_booking db booking_id =
      { db with tasks := db.tasks.map (cancel_mark booking_id) } := rfl

theorem cancel_mark_idem (booking_id : Nat) (t : CleaningTask) :
    cancel_mark booking_id (cancel_mark booking_id t) =
      cancel_mark booking_id t := by
  by_cases h : t.booking_id = some booking_id ∧
      (t.status = TaskStatus.pending ∨ t.status = TaskStatus.notified)
  · simp [cancel_mark, h]
  · simp [cancel_mark, h]

theorem cancel_tasks_idem (db : OpsDB) (booking_id : Nat) :
    cancel_tasks_for_booking (cancel_tasks_for_booking db booking_id)
        booking_id =
      cancel_tasks_for_booking db booking_id := by
  rw [cancel_tasks_eq, cancel_tasks_eq]
  show ({ db with
            tasks := (db.tasks.map (cancel_mark booking_id)).map
              (cancel_mark booking_id) } : OpsDB) =
    { db with tasks := db.tasks.map (cancel_mark booking_id) }
  rw [List.map_map]
  have hmm : db.tasks.map (cancel_mark booking_id ∘ cancel_mark booking_id) =
      db.tasks.map (cancel_mark booking_id) :=
    List.map_congr_left (fun a _ => cancel_mark_idem booking_id a)
  rw [hmm]

/-- C8: the cancellation handler transitions every pending or notified
task of the booking to cancelled, keeps every other task verbatim, leaves
no pending or notified task of the booking behind, and is idempotent. -/
theorem C8_cascade_cancellation (db : OpsDB) (booking_id : Nat)
    (hbid : booking_id ≠ 0) :
    (∀ t ∈ db.tasks,
      ((t.booking_id = some booking_id ∧
          (t.status = TaskStatus.pending ∨ t.status = TaskStatus.notified)) →
        ({ t with status := TaskStatus.cancelled } : CleaningTask) ∈
          (on_booking_cancelled db (some booking_id)).tasks) ∧
      (¬(t.booking_id = some booking_id ∧
          (t.status = TaskStatus.pending ∨ t.status = TaskStatus.notified)) →
        t ∈ (on_booking_cancelled db (some booking_id)).tasks)) ∧
    (∀ t ∈ (on_booking_cancelled db (some booking_id)).tasks,
      t.booking_id = some booking_id →
        ¬(t.status = TaskStatus.pending) ∧
        ¬(t.status = TaskStatus.notified)) ∧
    on_booking_cancelled (on_booking_cancelled db (some booking_id))
        (some booking_id) =
      on_booking_cancelled db (some booking_id) := by
  have hred : ∀ d : OpsDB, on_booking_cancelled d (some booking_id) =
      cancel_tasks_for_booking d booking_id := by
    intro d
    show (if booking_id = 0 then d else cancel_tasks_for_booking d booking_id) =
      cancel_tasks_for_booking d booking_id
    rw [if_neg hbid]
  refine ⟨?_, ?_, ?_⟩
  · intro t ht
    constructor
    · intro hcond
      have hcm : cancel_mark booking_id t =
          ({ t with status := TaskStatus.cancelled } : CleaningTask) := by
        unfold cancel_mark
        rw [if_pos hcond]
      have h := List.mem_map_of_mem (cancel_mark booking_id) ht
      rw [hcm] at h
      rw [hred, cancel_tasks_eq]
      exact h
    · intro hcond
      have hcm : cancel_mark booking_id t = t := by
        unfold cancel_mark
        rw [if_neg hcond]
      have h := List.mem_map_of_mem (cancel_mark booking_id) ht
      rw [hcm] at h
      rw [hred, cancel_tasks_eq]
      exact h
  · intro t ht hbk
    rw [hred, cancel_tasks_eq] at ht
    have ht' : t ∈ db.tasks.map (cancel_mark booking_id) := ht
    obtain ⟨t0, ht0, heq0⟩ := List.mem_map.mp ht'
    by_cases hcond : t0.booking_id = some booking_id ∧
        (t0.status = TaskStatus.pending ∨ t0.status = TaskStatus.notified)
    · have hteq : t = ({ t0 with status := TaskStatus.cancelled } : CleaningTask) := by
        rw [← heq0]
        unfold cancel_mark
        rw [if_pos hcond]
      rw [hteq]
      exact ⟨fun h2 => TaskStatus.noConfusion h2,
        fun h2 => TaskStatus.noConfusion h2⟩
    · have hteq : t = t0 := by
        rw [← heq0]
        unfold cancel_mark
        rw [if_neg hcond]
      rw [hteq] at hbk ⊢
      exact ⟨fun hp => hcond ⟨hbk, Or.inl hp⟩,
        fun hp => hcond ⟨hbk, Or.inr hp⟩⟩
  · rw [hred, hred, cancel_tasks_idem]

/-- The pending task of the C8 witness. -/
def c8_pending : CleaningTask :=
  { id := 1, property_id := 2, booking_id := some 1, scheduled_date := 5,
    status := TaskStatus.pending, is_turnover := false, priority := "normal" }

/-- The completed task of the C8 witness. -/
def c8_completed : CleaningTask :=
  { id := 2, property_id := 2, booking_id := some 1, scheduled_date := 4,
    status := TaskStatus.completed, is_turnover := false, priority := "normal" }

/-- Concrete store for the C8 witness. -/
def c8_db : OpsDB :=
  { bookings := [], tasks := [c8_pending, c8_completed], next_task_id := 3 }

/-- Witness for C8: cancelling booking 1 cancels only the pending task,
keeps the completed one, and a second delivery changes nothing. -/
theorem C8_cascade_cancellation_witness :
    (1 : Nat) ≠ 0 ∧
    ({ c8_pending with status := TaskStatus.cancelled } : CleaningTask) ∈
      (on_booking_cancelled c8_db (some 1)).tasks ∧
    c8_completed ∈ (on_booking_cancelled c8_db (some 1)).tasks ∧
    on_booking_cancelled (on_booking_cancelled c8_db (some 1)) (some 1) =
      on_booking_cancelled c8_db (some 1) := by
  have h := C8_cascade_cancellation c8_db 1 (by decide)
  refine ⟨by decide, ?_, ?_, h.2.2⟩
  · exact (h.1 c8_pending (by decide)).1 (by decide)
  · exact (h.1 c8_completed (by decide)).2 (by decide)

/-! ### Claim C9 -/

/-- Spec-side sequential delivery: each callback runs exactly once, in
list order, on the state the previous one left behind; its outcome —
normal return or caught exception — is recorded and the loop continues
regardless. -/
def deliver_sequentially {σ : Type} : List (Handler σ) → σ →
    σ × List (Option String)
  | [], s => (s, [])
  | h :: hs, s =>
    let r := h s
    let rest := deliver_sequentially hs r.1
    (rest.1, r.2 :: rest.2)

theorem publish_aux {σ : Type} :
    ∀ (handlers : List (Handler σ)) (x : σ) (log : List (Option String)),
      handlers.foldl
        (fun acc h =>
          let r := h acc.1
          (r.1, acc.2 ++ [r.2])) (x, log) =
      ((publish handlers x).1, log ++ (publish handlers x).2) := by
  intro handlers
  induction handlers with
  | nil =>
    intro x log
    simp [publish]
  | cons h hs ih =>
    intro x log
    rw [List.foldl_cons]
    dsimp only
    rw [ih]
    have hps : publish (h :: hs) x = ((publish hs (h x).1).1,
        [(h x).2] ++ (publish hs (h x).1).2) := by
      show List.foldl _ (x, []) (h :: hs) = _
      rw [List.foldl_cons]
      dsimp only
      rw [ih]
      simp
    rw [hps]
    simp

theorem publish_eq_deliver {σ : Type} :
    ∀ (handlers : List (Handler σ)) (s : σ),
      publish handlers s = deliver_sequentially handlers s := by
  intro handlers
  induction handlers with
  | nil =>
    intro s
    rfl
  | cons h hs ih =>
    intro s
    have h1 : publish (h :: hs) s = ((publish hs (h s).1).1,
        [(h s).2] ++ (publish hs (h s).1).2) := by
      show List.foldl _ (s, []) (h :: hs) = _
      rw [List.foldl_cons]
      dsimp only
      rw [publish_aux]
      simp
    rw [h1, ih]
    rfl

theorem deliver_length {σ : Type} :
    ∀ (handlers : List (Handler σ)) (s : σ),
      (deliver_sequentially handlers s).2.length = handlers.length := by
  intro handlers
  induction handlers with
  | nil =>
    intro s
    rfl
  | cons h hs ih =>
    intro s
    show ((h s).2 :: (deliver_sequentially hs (h s).1).2).length = hs.length + 1
    rw [List.length_cons, ih]

/-- C9: `publish` delivers to every handler of the event's type exactly
once and sequentially — it equals the sequential-delivery reference, whose
step runs the next handler on the previous handler's state and records a
raised exception in the log instead of propagating it or stopping the
loop; the log has one entry per registered handler; `subscribe` appends to
the type's list and leaves other types' lists alone. -/
theorem C9_publish_delivery {σ : Type} (bus : Bus σ) (t t2 : EventType)
    (h : Handler σ) (handlers : List (Handler σ)) (s : σ) :
    publish handlers s = deliver_sequentially handlers s ∧
    (publish handlers s).2.length = handlers.length ∧
    handlers_for (subscribe bus t h) t = handlers_for bus t ++ [h] ∧
    (t2 ≠ t → handlers_for (subscribe bus t h) t2 = handlers_for bus t2) ∧
    publish_on bus t s = deliver_sequentially (handlers_for bus t) s := by
  refine ⟨publish_eq_deliver handlers s, ?_, ?_, ?_, ?_⟩
  · rw [publish_eq_deliver]
    exact deliver_length handlers s
  · simp [handlers_for, subscribe, List.filter_append]
  · intro hne
    have hne2 : ¬(t = t2) := fun hh => hne hh.symm
    simp [handlers_for, subscribe, List.filter_append, hne2]
  · show publish (handlers_for bus t) s = _
    exact publish_eq_deliver (handlers_for bus t) s

/-- First handler of the C9 witness: updates the state and raises. -/
def c9_h1 : Handler Nat := fun n => (n + 1, some "boom")

/-- Second handler of the C9 witness: runs after the raising one. -/
def c9_h2 : Handler Nat := fun n => (n * 2, none)

/-- Witness for C9: the second handler still runs after the first one
raises, on the state the first one left, and nothing propagates. -/
theorem C9_publish_delivery_witness :
    publish [c9_h1, c9_h2] 3 = (8, [some "boom", none]) ∧
    (publish [c9_h1, c9_h2] 3 = deliver_sequentially [c9_h1, c9_h2] 3 ∧
      (publish [c9_h1, c9_h2] 3).2.length = 2 ∧
      handlers_for (subscribe (⟨[]⟩ : Bus Nat) EventType.booking_new c9_h1)
          EventType.booking_new =
        handlers_for (⟨[]⟩ : Bus Nat) EventType.booking_new ++ [c9_h1] ∧
      (EventType.booking_modified ≠ EventType.booking_new →
        handlers_for (subscribe (⟨[]⟩ : Bus Nat) EventType.booking_new c9_h1)
            EventType.booking_modified =
          handlers_for (⟨[]⟩ : Bus Nat) EventType.booking_modified) ∧
      publish_on (⟨[]⟩ : Bus Nat) EventType.booking_new 3 =
        deliver_sequentially
          (handlers_for (⟨[]⟩ : Bus Nat) EventType.booking_new) 3) :=
  ⟨rfl, C9_publish_delivery (⟨[]⟩ : Bus Nat) EventType.booking_new
    EventType.booking_modified c9_h1 [c9_h1, c9_h2] 3⟩

/-! ### Claim C4 -/

/-- C4 (amended): booking creation performs no date validation — the sync
create path persists any feed event's dates verbatim, checkin ≥ checkout
included, and the pass completes instead of surfacing a failure. -/
theorem C4_no_date_validation (pid now : Nat) (db : SyncDB) (e : FeedEvent)
    (hwf : db.wf = true)
    (hfresh : ∀ b0 ∈ db.bookings, ¬(b0.ical_uid = some e.uid)) :
    (sync_property pid now db [e]).ok = true ∧
    ∃ x ∈ (sync_property pid now db [e]).db.bookings,
      x.checkin_date = e.checkin ∧ x.checkout_date = e.checkout := by
  have hst0 : stable pid (build_dict pid db) db := stable_init hwf
  have hdfe : dict_find (build_dict pid db) e.uid = none :=
    dict_find_build_none hwf (fun b hb _ => hfresh b hb)
  have hconf : uid_conflict db e.uid = false := by
    cases hcf : uid_conflict db e.uid with
    | false => rfl
    | true =>
      exfalso
      unfold uid_conflict at hcf
      obtain ⟨b0, hb0, hmatch⟩ := List.any_eq_true.mp hcf
      exact hfresh b0 hb0 (by simpa using hmatch)
  have hstep := @sync_step_create pid now (build_dict pid db) ⟨db, [], []⟩ e
    hdfe hconf
  have hpack : ∃ st2,
      sync_step pid now (build_dict pid db) ⟨db, [], []⟩ e = (st2, true) ∧
      st2.db.bookings = db.bookings ++ [fresh_booking pid now db.next_id e] ∧
      st2.db.next_id = db.next_id + 1 :=
    ⟨_, hstep, rfl, rfl⟩
  obtain ⟨st2, hstep2, hb2, hn2⟩ := hpack
  have hrun : sync_events pid now (build_dict pid db) ⟨db, [], []⟩ [e] =
      (st2, true) := by
    rw [sync_events_cons_ok hstep2]
    exact sync_events_nil
  have hq2 : ∀ q ∈ build_dict pid db,
      q.2 ≠ (fresh_booking pid now db.next_id e).id := by
    intro q hq heqq
    have h1 := build_dict_values_lt hwf hq
    have hxid : (fresh_booking pid now db.next_id e).id = db.next_id := rfl
    rw [hxid] at heqq
    omega
  have hmem2 : fresh_booking pid now db.next_id e ∈ st2.db.bookings := by
    rw [hb2]
    exact List.mem_append_right _ (List.mem_singleton_self _)
  rcases sync_property_cases pid now db [e] with
    ⟨stF, hrunF, heq⟩ | ⟨stF, hrunF, heq⟩
  · rw [hrun] at hrunF
    injection hrunF with hst hok2
    subst hst
    refine ⟨?_, fresh_booking pid now db.next_id e, ?_, rfl, rfl⟩
    · rw [heq]
    · rw [heq]
      exact cancel_missing_untouched (build_dict pid db) st2 _ hmem2 hq2
  · rw [hrun] at hrunF
    cases hrunF

/-- The well-formed VEVENT with reversed dates for the C4 counterexample. -/
def c4_comp : VComponent :=
  { name := "VEVENT", uid := some "u4", dtstart := some 5, dtend := some 3,
    summary := some "s" }

/-- The parsed feed of the C4 counterexample. -/
def c4_feed : List FeedEvent := [⟨"u4", 5, 3, "s"⟩]

/-- Counterexample to C4 as stated: a feed entry with dtstart after dtend
parses, the cycle completes without any validation failure, and a booking
row with checkout before checkin is persisted in the store. -/
theorem C4_validation_counterexample :
    parse_events [c4_comp] = c4_feed ∧
    (sync_property 1 0 ⟨[], 1⟩ c4_feed).ok = true ∧
    ∃ b ∈ (sync_property 1 0 ⟨[], 1⟩ c4_feed).db.bookings,
      b.checkout_date < b.checkin_date := by
  decide

/-- Witness for the amended C4 at the empty store. -/
theorem C4_no_date_validation_witness :
    (⟨[], 1⟩ : SyncDB).wf = true ∧
    ((sync_property 2 0 (⟨[], 1⟩ : SyncDB) [⟨"u4", 5, 3, "s"⟩]).ok = true ∧
    ∃ x ∈ (sync_property 2 0 (⟨[], 1⟩ : SyncDB) [⟨"u4", 5, 3, "s"⟩]).db.bookings,
      x.checkin_date = 5 ∧ x.checkout_date = 3) :=
  ⟨by decide, C4_no_date_validation 2 0 ⟨[], 1⟩ ⟨"u4", 5, 3, "s"⟩ (by decide)
    (by decide)⟩

/-! ### Claim C10 -/

/-- C10: a VEVENT missing dtstart, dtend or a usable uid is silently
dropped by the parser rather than failing the fetch, and a stored
confirmed booking whose only feed entry was that component is therefore
treated as unobserved: the completed cycle cancels it and publishes one
`booking_cancelled` event instead of aborting with state unchanged. -/
theorem C10_malformed_vevent_cancels (pid now : Nat) (db : SyncDB)
    (comps1 comps2 : List VComponent) (c : VComponent) (b : Booking)
    (u : String)
    (hmal : c.dtstart = none ∨ c.dtend = none ∨ c.uid.getD "" = "")
    (hwf : db.wf = true) (hb : b ∈ db.bookings)
    (hscope : ical_scope pid b = true) (huid : b.ical_uid = some u)
    (hne : u ≠ "") (hstat : b.status = BookingStatus.confirmed)
    (hmiss : u ∉ (parse_events (comps1 ++ comps2)).map FeedEvent.uid)
    (hok : (sync_property pid now db
      (parse_events (comps1 ++ c :: comps2))).ok = true) :
    parse_events (comps1 ++ c :: comps2) = parse_events (comps1 ++ comps2) ∧
    cancel_row now b ∈
      (sync_property pid now db
        (parse_events (comps1 ++ c :: comps2))).db.bookings ∧
    events_for (sync_property pid now db
      (parse_events (comps1 ++ c :: comps2))) b.id = 1 ∧
    (⟨EventType.booking_cancelled, b.id, pid⟩ : SyncEvent) ∈
      (sync_property pid now db
        (parse_events (comps1 ++ c :: comps2))).events := by
  have hpe : parse_events (comps1 ++ c :: comps2) =
      parse_events (comps1 ++ comps2) := by
    unfold parse_events
    rw [List.filterMap_append, List.filterMap_append, List.filterMap_cons]
    rcases hmal with h | h | h
    · cases hde : c.dtend with
      | none => simp [h, hde]
      | some de => simp [h, hde]
    · cases hds : c.dtstart with
      | none => simp [h, hds]
      | some ds => simp [h, hds]
    · cases hds : c.dtstart with
      | none =>
        cases hde : c.dtend with
        | none => simp [hds, hde]
        | some de => simp [hds, hde]
      | some ds =>
        cases hde : c.dtend with
        | none => simp [hds, hde]
        | some de => simp [h, hds, hde]
  obtain ⟨h1, h2, h3⟩ := sync_property_cancels pid now db
    (parse_events (comps1 ++ c :: comps2)) b u hwf hb hscope huid hne hstat
    (by rw [hpe]; exact hmiss) hok
  exact ⟨hpe, h1, h2, h3⟩

/-- The stored confirmed feed row of the C10 witness. -/
def c10_booking : Booking :=
  { id := 1, property_id := 4, ical_uid := some "v", checkin_date := 2,
    checkout_date := 3, summary := some "s",
    status := BookingStatus.confirmed, source := BookingSource.ical,
    updated_at := 0 }

/-- Concrete store for the C10 witness. -/
def c10_db : SyncDB := { bookings := [c10_booking], next_id := 2 }

/-- The booking's feed entry after it lost its dtstart. -/
def c10_comp : VComponent :=
  { name := "VEVENT", uid := some "v", dtstart := none, dtend := some 3,
    summary := some "s" }

/-- Witness for C10: the malformed entry is dropped and the booking is
cancelled with one event in a completed cycle. -/
theorem C10_malformed_vevent_cancels_witness :
    c10_db.wf = true ∧
    (sync_property 4 9 c10_db (parse_events ([] ++ c10_comp :: []))).ok = true ∧
    (parse_events ([] ++ c10_comp :: []) = parse_events ([] ++ []) ∧
    cancel_row 9 c10_booking ∈
      (sync_property 4 9 c10_db
        (parse_events ([] ++ c10_comp :: []))).db.bookings ∧
    events_for (sync_property 4 9 c10_db
      (parse_events ([] ++ c10_comp :: []))) c10_booking.id = 1 ∧
    (⟨EventType.booking_cancelled, c10_booking.id, 4⟩ : SyncEvent) ∈
      (sync_property 4 9 c10_db
        (parse_events ([] ++ c10_comp :: []))).events) :=
  ⟨by decide, by decide,
    C10_malformed_vevent_cancels 4 9 c10_db [] [] c10_comp c10_booking "v"
      (by decide) (by decide) (by decide) (by decide) (by decide) (by decide)
      (by decide) (by decide) (by decide)⟩

end Proppilot
